import Mathlib

/-
  Verification development for the tg_bot repository.

  Shallow embedding of the two core subsystems:
  - the signal-scoring / level-construction engine
    (technical_analysis.get_signal_strength, ml_predictor.MLPredictor.predict,
     signal_generator.SignalGenerator.generate), and
  - the position lifecycle tracker
    (signal_tracker.SignalTracker together with the database.py helpers).

  Prices, indicator values and confidences are modelled as rationals; the
  sqlite trades table is a list of Trade records; the per-symbol price cache
  is an association list.  Fallible external price fetches are modelled as
  functions String to Option of a rational (none = the fetch raised).
-/

namespace TgBot

/-- Modelled from the spec: config.py is imported by signal_generator.py,
signal_tracker.py and main.py but is not among the provided sources.  Its
constants are represented as an explicit record passed to the embedded
functions. -/
structure Config where
  MIN_CONFIDENCE : ℚ
  MIN_ADX : ℚ
  ENABLE_AVERAGING : Bool
  AVERAGING_DISTANCE : ℚ
  ATR_MULTIPLIER_SL : ℚ
  ATR_MULTIPLIER_TP1 : ℚ
  ATR_MULTIPLIER_TP2 : ℚ
  ATR_MULTIPLIER_TP3 : ℚ
  POSITION_SIZE_A : ℚ
  POSITION_SIZE_B : ℚ
  deriving DecidableEq

/-- Modelled from the spec: the constraints the spec places on the
configuration (positive ATR multipliers ordered m_sl, and
m_tp1 < m_tp2 < m_tp3; an averaging distance strictly between 0 and 1;
position weights that are positive and sum to 1, e.g. 0.7 and 0.3). -/
def ConfigOk (cfg : Config) : Prop :=
  0 < cfg.ATR_MULTIPLIER_SL ∧ 0 < cfg.ATR_MULTIPLIER_TP1 ∧
  cfg.ATR_MULTIPLIER_SL < cfg.ATR_MULTIPLIER_TP1 ∧
  cfg.ATR_MULTIPLIER_TP1 < cfg.ATR_MULTIPLIER_TP2 ∧
  cfg.ATR_MULTIPLIER_TP2 < cfg.ATR_MULTIPLIER_TP3 ∧
  0 < cfg.AVERAGING_DISTANCE ∧ cfg.AVERAGING_DISTANCE < 1 ∧
  0 < cfg.POSITION_SIZE_A ∧ 0 < cfg.POSITION_SIZE_B ∧
  cfg.POSITION_SIZE_A + cfg.POSITION_SIZE_B = 1

instance (cfg : Config) : Decidable (ConfigOk cfg) := by
  unfold ConfigOk; infer_instance

/-- One row of the indicator-extended frame produced by
TechnicalAnalyzer.add_all_indicators after dropna (so every indicator value
is present; in particular adx is never NaN on the rows that survive, which
makes the np.isnan fallback in get_signal_strength unreachable).  Only the
columns read by get_signal_strength and SignalGenerator.generate are
modelled.  The python column named open is rendered open_ because open is a
Lean keyword. -/
structure Row where
  open_ : ℚ
  close : ℚ
  rsi : ℚ
  macd : ℚ
  macd_signal : ℚ
  sma_20 : ℚ
  sma_50 : ℚ
  bb_lower : ℚ
  bb_upper : ℚ
  stoch_k : ℚ
  stoch_d : ℚ
  adx : ℚ
  volume_ratio : ℚ
  atr : ℚ
  deriving DecidableEq

/-- Result dictionary of TechnicalAnalyzer.get_signal_strength. -/
structure ScoreResult where
  bullish_score : ℕ
  bearish_score : ℕ
  trend_strength : ℚ
  net_score : ℤ
  confidence : ℚ
  deriving DecidableEq

/-- technical_analysis.py, TechnicalAnalyzer.get_signal_strength: point-based
scoring over the last two rows of the frame. -/
def get_signal_strength (prev last : Row) : ScoreResult :=
  let rsiPts : ℕ × ℕ :=
    if last.rsi < 30 then (2, 0)
    else if last.rsi > 70 then (0, 2)
    else if last.rsi < 45 then (1, 0)
    else if last.rsi > 55 then (0, 1)
    else (0, 0)
  let macdPts : ℕ × ℕ :=
    if last.macd > last.macd_signal ∧ prev.macd ≤ prev.macd_signal then (2, 0)
    else if last.macd < last.macd_signal ∧ prev.macd ≥ prev.macd_signal then (0, 2)
    else if last.macd > last.macd_signal then (1, 0)
    else (0, 1)
  let maPts : ℕ × ℕ :=
    if last.close > last.sma_20 ∧ last.sma_20 > last.sma_50 then (2, 0)
    else if last.close < last.sma_20 ∧ last.sma_20 < last.sma_50 then (0, 2)
    else (0, 0)
  let bbPts : ℕ × ℕ :=
    if last.close < last.bb_lower then (2, 0)
    else if last.close > last.bb_upper then (0, 2)
    else (0, 0)
  let stochPts : ℕ × ℕ :=
    if last.stoch_k < 20 ∧ last.stoch_k > last.stoch_d then (1, 0)
    else if last.stoch_k > 80 ∧ last.stoch_k < last.stoch_d then (0, 1)
    else (0, 0)
  let volPts : ℕ × ℕ :=
    if last.volume_ratio > 3/2 then
      (if last.close > last.open_ then (1, 0) else (0, 1))
    else (0, 0)
  let bullish : ℕ :=
    rsiPts.1 + macdPts.1 + maPts.1 + bbPts.1 + stochPts.1 + volPts.1
  let bearish : ℕ :=
    rsiPts.2 + macdPts.2 + maPts.2 + bbPts.2 + stochPts.2 + volPts.2
  { bullish_score := bullish
    bearish_score := bearish
    trend_strength := last.adx
    net_score := (bullish : ℤ) - (bearish : ℤ)
    confidence := ((((bullish : ℤ) - (bearish : ℤ)).natAbs : ℚ)) /
      max ((bullish : ℚ) + (bearish : ℚ)) 1 }

/-- Result dictionary of MLPredictor.predict. -/
structure Prediction where
  direction : ℤ
  confidence : ℚ
  deriving DecidableEq

/-- The outcome of the classifier call inside MLPredictor.predict: either one
of the soft-failure paths (unfit model whose lazy training failed, missing
features, NaN features, or an exception from the model), or a successful
predict_proba call yielding the class labels and their probabilities. -/
inductive ClassifierResult
  | failure
  | proba (classes : List ℤ) (probs : List ℚ)

/-- ml_predictor.py, MLPredictor.predict: the direction/confidence
computation.  np.where(classes == c)[0][0] is the first index of class c. -/
def predict : ClassifierResult → Prediction
  | ClassifierResult.failure => { direction := 0, confidence := 0 }
  | ClassifierResult.proba classes probs =>
    if 2 ≤ probs.length then
      match classes.findIdx? (fun c => c = 1), classes.findIdx? (fun c => c = -1) with
      | some il, some ish =>
        let prob_long := probs.getD il 0
        let prob_short := probs.getD ish 0
        { direction := if prob_long > prob_short then 1 else -1
          confidence := max prob_long prob_short }
      | _, _ =>
        let prob_long := if 1 < probs.length then probs.getD 1 0 else 1/2
        let prob_short := probs.getD 0 0
        { direction := if prob_long > prob_short then 1 else -1
          confidence := max prob_long prob_short }
    else { direction := 0, confidence := 0 }

/-- Probabilities handed back by predict_proba are in the unit interval. -/
def ProbsOk : ClassifierResult → Prop
  | ClassifierResult.failure => True
  | ClassifierResult.proba _ probs => ∀ p ∈ probs, 0 ≤ p ∧ p ≤ 1

inductive Side
  | LONG
  | SHORT
  deriving DecidableEq

/-- signal_generator.py, dataclass Signal. -/
structure Signal where
  symbol : String
  side : Side
  entry_a : ℚ
  entry_b : Option ℚ
  stop : ℚ
  tp1 : ℚ
  tp2 : ℚ
  tp3 : ℚ
  confidence : ℚ
  deriving DecidableEq

/-- signal_generator.py line 101: the mean of the two confidences. -/
def combined_confidence (strength : ScoreResult) (pred : Prediction) : ℚ :=
  (strength.confidence + pred.confidence) / 2

/-- signal_generator.py lines 122-160: level construction from the current
price and ATR once every gate has passed. -/
def build_signal (cfg : Config) (symbol : String) (side : Side) (price atr conf : ℚ) :
    Signal :=
  match side with
  | Side.LONG =>
    { symbol := symbol, side := Side.LONG, entry_a := price
      entry_b := if cfg.ENABLE_AVERAGING then some (price * (1 - cfg.AVERAGING_DISTANCE)) else none
      stop := price - atr * cfg.ATR_MULTIPLIER_SL, tp1 := price + atr * cfg.ATR_MULTIPLIER_TP1
      tp2 := price + atr * cfg.ATR_MULTIPLIER_TP2, tp3 := price + atr * cfg.ATR_MULTIPLIER_TP3
      confidence := conf }
  | Side.SHORT =>
    { symbol := symbol, side := Side.SHORT, entry_a := price
      entry_b := if cfg.ENABLE_AVERAGING then some (price * (1 + cfg.AVERAGING_DISTANCE)) else none
      stop := price + atr * cfg.ATR_MULTIPLIER_SL, tp1 := price - atr * cfg.ATR_MULTIPLIER_TP1
      tp2 := price - atr * cfg.ATR_MULTIPLIER_TP2, tp3 := price - atr * cfg.ATR_MULTIPLIER_TP3
      confidence := conf }

/-- signal_generator.py, SignalGenerator.generate.  The frame argument is the
indicator-extended, NaN-dropped dataframe; the classifier outcome is passed
in as a Prediction (ml.predict is external to the gating logic).  Matching on
frame.reverse renders iloc[-1] and iloc[-2]; both fallback branches are
unreachable once the length gate has passed. -/
def generate (cfg : Config) (frame : List Row) (pred : Prediction) (symbol : String) :
    Option Signal :=
  if frame.length < 10 then none
  else
    match frame.reverse with
    | [] => none
    | [_] => none
    | last :: prev :: _ =>
      let strength := get_signal_strength prev last
      let combined_conf := combined_confidence strength pred
      if combined_conf < cfg.MIN_CONFIDENCE then none
      else if last.adx < cfg.MIN_ADX then none
      else if (pred.direction = 1 ∧ strength.net_score ≤ 0) ∨
              (pred.direction = -1 ∧ strength.net_score ≥ 0) then none
      else
        let side := if pred.direction = 1 then Side.LONG else Side.SHORT
        some (build_signal cfg symbol side last.close last.atr combined_conf)

/- ================= tracker data model (database.py, signal_tracker.py) -/

inductive Status
  | OPEN
  | CLOSED
  deriving DecidableEq

/-- One row of the sqlite trades table (database.py, init_db).  The hit
columns are the integer flags tp1_hit, tp2_hit, tp3_hit. -/
structure Trade where
  id : ℕ
  symbol : String
  side : Side
  entry_a : ℚ
  entry_b : Option ℚ
  stop : ℚ
  tp1 : ℚ
  tp2 : ℚ
  tp3 : ℚ
  status : Status
  pnl : Option ℚ
  tp1_hit : Bool
  tp2_hit : Bool
  tp3_hit : Bool
  deriving DecidableEq

abbrev DB := List Trade

/-- database.py, get_open_trades: SELECT * FROM trades WHERE status = OPEN. -/
def get_open_trades (db : DB) : List Trade :=
  db.filter (fun t => decide (t.status = Status.OPEN))

/-- database.py, close_trade: UPDATE trades SET status=CLOSED, pnl=? WHERE id=?. -/
def close_trade (db : DB) (trade_id : ℕ) (pnl : ℚ) : DB :=
  db.map (fun t =>
    if t.id = trade_id then { t with status := Status.CLOSED, pnl := some pnl } else t)

/-- database.py, mark_tp_hit: UPDATE trades SET tpN_hit = 1 WHERE id = ?;
levels outside 1..3 are ignored. -/
def mark_tp_hit (db : DB) (trade_id : ℕ) (tp_level : ℕ) : DB :=
  if tp_level = 1 then
    db.map (fun t => if t.id = trade_id then { t with tp1_hit := true } else t)
  else if tp_level = 2 then
    db.map (fun t => if t.id = trade_id then { t with tp2_hit := true } else t)
  else if tp_level = 3 then
    db.map (fun t => if t.id = trade_id then { t with tp3_hit := true } else t)
  else db

/-- database.py, is_tp_hit: SELECT tpN_hit FROM trades WHERE id = ?, reading
the first returned row; False when no row matches or the level is invalid. -/
def is_tp_hit (db : DB) (trade_id : ℕ) (tp_level : ℕ) : Bool :=
  match db.find? (fun t => decide (t.id = trade_id)) with
  | none => false
  | some t =>
    if tp_level = 1 then t.tp1_hit
    else if tp_level = 2 then t.tp2_hit
    else if tp_level = 3 then t.tp3_hit
    else false

/-- The per-cycle price cache of SignalTracker (a python dict keyed by
symbol), as an association list under first-match lookup. -/
abbrev Cache := List (String × ℚ)

def cacheLookup (c : Cache) (s : String) : Option ℚ :=
  (c.find? (fun e => decide (e.1 = s))).map (fun e => e.2)

def cacheInsert (c : Cache) (s : String) (p : ℚ) : Cache :=
  (s, p) :: c.filter (fun e => decide (¬ e.1 = s))

/-- data_fetcher.py, DataFetcher.get_current_price: returns the ticker price,
or the sentinel 0.0 when the underlying exchange call raises. -/
def get_current_price (fetch : String → Option ℚ) (symbol : String) : ℚ :=
  (fetch symbol).getD 0

/-- signal_tracker.py, SignalTracker._update_prices: for each symbol, fetch
the current price and store it in the cache only when it is positive; a
failure leaves the cache untouched for that symbol. -/
def update_prices (fetch : String → Option ℚ) (c : Cache) : List String → Cache
  | [] => c
  | s :: rest =>
    let price := get_current_price fetch s
    update_prices fetch (if 0 < price then cacheInsert c s price else c) rest

/-- signal_tracker.py, SignalTracker._calculate_weighted_entry. -/
def calculate_weighted_entry (cfg : Config) (entry_a : ℚ) (entry_b : Option ℚ) : ℚ :=
  match entry_b with
  | none => entry_a
  | some b => entry_a * cfg.POSITION_SIZE_A + b * cfg.POSITION_SIZE_B

/-- signal_tracker.py, SignalTracker._calculate_pnl. -/
def calculate_pnl (entry_avg exit_price : ℚ) (is_long : Bool) : ℚ :=
  if is_long then (exit_price - entry_avg) / entry_avg * 100
  else (entry_avg - exit_price) / entry_avg * 100

/-- signal_tracker.py line 146: direction == LONG. -/
def trade_is_long (t : Trade) : Bool := decide (t.side = Side.LONG)

/-- signal_tracker.py line 152: the stop trigger test. -/
def stop_hit (t : Trade) (p : ℚ) : Bool :=
  (trade_is_long t && decide (p ≤ t.stop)) || (!trade_is_long t && decide (t.stop ≤ p))

/-- signal_tracker.py lines 175/191/207: the take-profit trigger test against
a given level price. -/
def tp_hit (t : Trade) (level : ℚ) (p : ℚ) : Bool :=
  (trade_is_long t && decide (level ≤ p)) || (!trade_is_long t && decide (p ≤ level))

inductive EType
  | STOP_LOSS
  | TP1
  | TP2
  | TP3_FULL
  deriving DecidableEq

/-- The result dictionary sent to the notifier / returned by _check_signal:
type, snapshot of the signal row, trigger price and pnl. -/
structure Event where
  etype : EType
  signal : Trade
  hit_price : ℚ
  pnl : ℚ
  deriving DecidableEq

/-- Outcome of one _check_signal call: the database after its mutations, the
events sent to the notifier (in order), and the returned value
(tp_results[0], or the stop event, or None). -/
structure CheckOut where
  db : DB
  notified : List Event
  returned : Option Event
  deriving DecidableEq

/-- The event type announcing take-profit level k (1, 2 or 3). -/
def tp_etype (k : ℕ) : EType :=
  if k = 1 then EType.TP1 else if k = 2 then EType.TP2 else EType.TP3_FULL

/-- One take-profit block of SignalTracker._check_signal (the TP1, TP2 and
TP3 blocks are structurally identical; closing is true only for TP3, which
also closes the trade).  The accumulator carries the current database and
the events notified so far. -/
def check_tp (cfg : Config) (t : Trade) (p : ℚ) (k : ℕ) (level : ℚ) (closing : Bool)
    (acc : DB × List Event) : DB × List Event :=
  if tp_hit t level p && !(is_tp_hit acc.1 t.id k) then
    let entry_avg := calculate_weighted_entry cfg t.entry_a t.entry_b
    let pnl := calculate_pnl entry_avg level (trade_is_long t)
    let db1 := mark_tp_hit acc.1 t.id k
    let db2 := if closing then close_trade db1 t.id pnl else db1
    (db2, acc.2 ++ [{ etype := tp_etype k, signal := t, hit_price := p, pnl := pnl }])
  else acc

/-- signal_tracker.py, SignalTracker._check_signal.  The trade argument is the
row snapshot taken by get_open_trades at the start of the cycle; hit flags
are re-read from the current database state via is_tp_hit, exactly as the
python queries sqlite. -/
def check_signal (cfg : Config) (cache : Cache) (db : DB) (t : Trade) : CheckOut :=
  match cacheLookup cache t.symbol with
  | none => ⟨db, [], none⟩
  | some p =>
    if p = 0 then ⟨db, [], none⟩
    else if stop_hit t p then
      let entry_avg := calculate_weighted_entry cfg t.entry_a t.entry_b
      let pnl := calculate_pnl entry_avg t.stop (trade_is_long t)
      let ev : Event := { etype := EType.STOP_LOSS, signal := t, hit_price := p, pnl := pnl }
      ⟨close_trade db t.id pnl, [ev], some ev⟩
    else
      let s3 := check_tp cfg t p 3 t.tp3 true
        (check_tp cfg t p 2 t.tp2 false (check_tp cfg t p 1 t.tp1 false (db, [])))
      ⟨s3.1, s3.2, s3.2.head?⟩

/-- Outcome of the per-signal loop of check_all_signals. -/
structure LoopOut where
  db : DB
  notified : List Event
  results : List Event
  deriving DecidableEq

/-- The for-loop of SignalTracker.check_all_signals: each open trade is
checked in turn against the fixed cycle cache, threading the database;
non-None returned values are appended to the results list. -/
def check_signals_loop (cfg : Config) (cache : Cache) (db : DB) : List Trade → LoopOut
  | [] => ⟨db, [], []⟩
  | t :: ts =>
    let o := check_signal cfg cache db t
    let rest := check_signals_loop cfg cache o.db ts
    ⟨rest.db, o.notified ++ rest.notified, o.returned.toList ++ rest.results⟩

/-- Outcome of one whole check cycle. -/
structure CycleOut where
  cache : Cache
  db : DB
  notified : List Event
  results : List Event
  deriving DecidableEq

/-- signal_tracker.py, SignalTracker.check_all_signals: load the open trades,
return early when there are none, refresh the price cache for their distinct
symbols (the cache instance attribute is updated, never cleared), then check
each signal. -/
def check_all_signals (cfg : Config) (fetch : String → Option ℚ) (cache : Cache) (db : DB) :
    CycleOut :=
  let active := get_open_trades db
  if active.isEmpty then ⟨cache, db, [], []⟩
  else
    let symbols := (active.map (fun t => t.symbol)).eraseDups
    let cache1 := update_prices fetch cache symbols
    let lo := check_signals_loop cfg cache1 db active
    ⟨cache1, lo.db, lo.notified, lo.results⟩

/-- Repeated check cycles: each cycle runs check_all_signals with that
cycle's fetch behaviour, carrying the tracker's cache and the database
forward and concatenating the emitted events. -/
def run_cycles (cfg : Config) (cache : Cache) (db : DB) :
    List (String → Option ℚ) → CycleOut
  | [] => ⟨cache, db, [], []⟩
  | f :: fs =>
    let c := check_all_signals cfg f cache db
    let rest := run_cycles cfg c.cache c.db fs
    ⟨rest.cache, rest.db, c.notified ++ rest.notified, c.results ++ rest.results⟩

/-- The exit level a given event type settles at (stop, tp1, tp2 or tp3 of
the position), used to state the PnL claim. -/
def exit_level (ty : EType) (t : Trade) : ℚ :=
  match ty with
  | EType.STOP_LOSS => t.stop
  | EType.TP1 => t.tp1
  | EType.TP2 => t.tp2
  | EType.TP3_FULL => t.tp3

/- ================= relations used to reason about database evolution -/

/-- How one trades row may evolve under the tracker's mutations: the
identifying and price fields never change, hit flags only go from false to
true, and a closed row stays closed. -/
structure TradeMono (t u : Trade) : Prop where
  id_eq : u.id = t.id
  symbol_eq : u.symbol = t.symbol
  side_eq : u.side = t.side
  entry_a_eq : u.entry_a = t.entry_a
  entry_b_eq : u.entry_b = t.entry_b
  stop_eq : u.stop = t.stop
  tp1_eq : u.tp1 = t.tp1
  tp2_eq : u.tp2 = t.tp2
  tp3_eq : u.tp3 = t.tp3
  tp1_mono : t.tp1_hit = true → u.tp1_hit = true
  tp2_mono : t.tp2_hit = true → u.tp2_hit = true
  tp3_mono : t.tp3_hit = true → u.tp3_hit = true
  status_mono : t.status = Status.CLOSED → u.status = Status.CLOSED

/-- Row-wise evolution of the whole trades table. -/
def DBMono (db1 db2 : DB) : Prop := List.Forall₂ TradeMono db1 db2

/-- Every row carrying the given id is closed. -/
def AllClosedId (db : DB) (i : ℕ) : Prop :=
  ∀ r ∈ db, r.id = i → r.status = Status.CLOSED

/-- Some row carries the given id. -/
def HasId (db : DB) (i : ℕ) : Prop := ∃ r ∈ db, r.id = i

/-- The database state that guarantees that an event of the given type can
never again be emitted for the given trade id: a stop or full take-profit
event requires an open row, the partial take-profit events are guarded by
their hit flag. -/
def Done (db : DB) (i : ℕ) : EType → Prop
  | EType.STOP_LOSS => AllClosedId db i
  | EType.TP1 => is_tp_hit db i 1 = true
  | EType.TP2 => is_tp_hit db i 2 = true
  | EType.TP3_FULL => is_tp_hit db i 3 = true

/-- After a position has been checked once against a cached price, the
database records every transition that price mandates: a triggered stop has
closed the rows of that id, and every triggered take-profit level has its
hit flag set. -/
def Settled (cache : Cache) (db : DB) (t : Trade) : Prop :=
  ∀ p, cacheLookup cache t.symbol = some p → ¬ p = 0 →
    (stop_hit t p = true → AllClosedId db t.id) ∧
    (stop_hit t p = false →
      (tp_hit t t.tp1 p = true → is_tp_hit db t.id 1 = true) ∧
      (tp_hit t t.tp2 p = true → is_tp_hit db t.id 2 = true) ∧
      (tp_hit t t.tp3 p = true → is_tp_hit db t.id 3 = true))

/- ================= concrete inputs used by witnesses and counterexamples -/

/-- A configuration with the spec's example weights (0.7/0.3) and round
threshold values, used to instantiate theorems on concrete inputs. -/
def cfgW : Config :=
  { MIN_CONFIDENCE := 1/2, MIN_ADX := 20, ENABLE_AVERAGING := true
    AVERAGING_DISTANCE := 1/50, ATR_MULTIPLIER_SL := 1, ATR_MULTIPLIER_TP1 := 3/2
    ATR_MULTIPLIER_TP2 := 5/2, ATR_MULTIPLIER_TP3 := 4
    POSITION_SIZE_A := 7/10, POSITION_SIZE_B := 3/10 }

/-- A concrete indicator row: mildly bullish, adx 25, atr 2. -/
def rowW : Row :=
  { open_ := 99, close := 100, rsi := 40, macd := 1, macd_signal := 0
    sma_20 := 95, sma_50 := 90, bb_lower := 80, bb_upper := 120
    stoch_k := 50, stoch_d := 50, adx := 25, volume_ratio := 1, atr := 2 }

/-- A row identical to rowW except for a weak trend (adx 15). -/
def rowWeak : Row := { rowW with adx := 15 }

def frameW : List Row :=
  [rowW, rowW, rowW, rowW, rowW, rowW, rowW, rowW, rowW, rowW]

def frameWeak : List Row :=
  [rowWeak, rowWeak, rowWeak, rowWeak, rowWeak, rowWeak, rowWeak, rowWeak, rowWeak, rowWeak]

/-- The spec Scenario A position: LONG, entries 100/98, stop 95, targets
105/110/120. -/
def tradeW : Trade :=
  { id := 1, symbol := "BTC", side := Side.LONG, entry_a := 100, entry_b := some 98
    stop := 95, tp1 := 105, tp2 := 110, tp3 := 120, status := Status.OPEN
    pnl := none, tp1_hit := false, tp2_hit := false, tp3_hit := false }

/-- A second position on the same symbol whose stop sits exactly at the
price cached in an earlier cycle. -/
def tradeLate : Trade :=
  { tradeW with id := 2, stop := 100, tp1 := 200, tp2 := 300, tp3 := 400 }

/-- A wide position that triggers nothing at price 100. -/
def tradeQuiet : Trade :=
  { tradeW with stop := 90, tp1 := 200, tp2 := 300, tp3 := 400 }

/-- The Scenario A position after it has been closed. -/
def tradeDone : Trade := { tradeW with status := Status.CLOSED }

/-- A fetch behaviour that always returns price 100. -/
def fOne : String → Option ℚ := fun _ => some 100

/-- A fetch behaviour whose every call raises. -/
def fNone : String → Option ℚ := fun _ => none

end TgBot

/- ===================== theorems ===================== -/

namespace TgBot

theorem build_signal_ordering (cfg : Config) (symbol : String) (side : Side)
    (price atr conf : ℚ) (hcfg : ConfigOk cfg) (hp : 0 < price) (ha : 0 < atr) :
    ((build_signal cfg symbol side price atr conf).side = Side.LONG →
      (build_signal cfg symbol side price atr conf).stop <
        (build_signal cfg symbol side price atr conf).entry_a ∧
      (build_signal cfg symbol side price atr conf).entry_a <
        (build_signal cfg symbol side price atr conf).tp1 ∧
      (build_signal cfg symbol side price atr conf).tp1 <
        (build_signal cfg symbol side price atr conf).tp2 ∧
      (build_signal cfg symbol side price atr conf).tp2 <
        (build_signal cfg symbol side price atr conf).tp3 ∧
      ∀ b ∈ (build_signal cfg symbol side price atr conf).entry_b,
        b < (build_signal cfg symbol side price atr conf).entry_a) ∧
    ((build_signal cfg symbol side price atr conf).side = Side.SHORT →
      (build_signal cfg symbol side price atr conf).tp3 <
        (build_signal cfg symbol side price atr conf).tp2 ∧
      (build_signal cfg symbol side price atr conf).tp2 <
        (build_signal cfg symbol side price atr conf).tp1 ∧
      (build_signal cfg symbol side price atr conf).tp1 <
        (build_signal cfg symbol side price atr conf).entry_a ∧
      (build_signal cfg symbol side price atr conf).entry_a <
        (build_signal cfg symbol side price atr conf).stop ∧
      ∀ b ∈ (build_signal cfg symbol side price atr conf).entry_b,
        (build_signal cfg symbol side price atr conf).entry_a < b) := by
  obtain ⟨h1, h2, h3, h4, h5, h6, h7, h8, h9, h10⟩ := hcfg
  cases side with
  | LONG =>
    simp only [build_signal]
    constructor
    · intro _
      refine ⟨by nlinarith [mul_pos ha h1], by nlinarith [mul_pos ha h2], by nlinarith, by nlinarith, ?_⟩
      intro b hb
      rcases hEA : cfg.ENABLE_AVERAGING with _ | _ <;> simp [hEA] at hb
      subst hb
      nlinarith [mul_pos hp h6]
    · intro h
      simp at h
  | SHORT =>
    simp only [build_signal]
    constructor
    · intro h
      simp at h
    · intro _
      refine ⟨by nlinarith, by nlinarith, by nlinarith [mul_pos ha h2], by nlinarith [mul_pos ha h1], ?_⟩
      intro b hb
      rcases hEA : cfg.ENABLE_AVERAGING with _ | _ <;> simp [hEA] at hb
      subst hb
      nlinarith [mul_pos hp h6]

theorem generate_eq_build (cfg : Config) (frame : List Row) (pred : Prediction)
    (symbol : String) (s : Signal) (hgen : generate cfg frame pred symbol = some s) :
    ∃ la pr rest, frame.reverse = la :: pr :: rest ∧ la ∈ frame ∧
      s = build_signal cfg symbol (if pred.direction = 1 then Side.LONG else Side.SHORT)
            la.close la.atr (combined_confidence (get_signal_strength pr la) pred) := by
  unfold generate at hgen
  by_cases hlen : frame.length < 10
  · simp [hlen] at hgen
  · rw [if_neg hlen] at hgen
    rcases hrev : frame.reverse with _ | ⟨la, _ | ⟨pr, rest⟩⟩
    · rw [hrev] at hgen; simp at hgen
    · rw [hrev] at hgen; simp at hgen
    · rw [hrev] at hgen
      have hmem : la ∈ frame := by
        have : la ∈ frame.reverse := by rw [hrev]; exact List.mem_cons_self _ _
        exact List.mem_reverse.mp this
      simp only [combined_confidence] at hgen ⊢
      simp at hgen
      exact ⟨la, pr, rest, rfl, hmem, hgen.2.2.2.symm⟩

/-- Claim C1: every Signal returned by generate satisfies the strict price
ordering: for LONG, stop < entry_a < tp1 < tp2 < tp3 and entry_b < entry_a
when present; for SHORT the mirrored strict inequalities.  The configuration
is constrained as the spec describes it (config.py is not among the sources)
and the frame is assumed to carry positive closes and positive ATR values. -/
theorem signal_level_ordering (cfg : Config) (frame : List Row) (pred : Prediction)
    (symbol : String) (s : Signal)
    (hcfg : ConfigOk cfg)
    (hpos : ∀ r ∈ frame, 0 < r.close ∧ 0 < r.atr)
    (hgen : generate cfg frame pred symbol = some s) :
    (s.side = Side.LONG →
      s.stop < s.entry_a ∧ s.entry_a < s.tp1 ∧ s.tp1 < s.tp2 ∧ s.tp2 < s.tp3 ∧
      ∀ b ∈ s.entry_b, b < s.entry_a) ∧
    (s.side = Side.SHORT →
      s.tp3 < s.tp2 ∧ s.tp2 < s.tp1 ∧ s.tp1 < s.entry_a ∧ s.entry_a < s.stop ∧
      ∀ b ∈ s.entry_b, s.entry_a < b) := by
  obtain ⟨la, pr, rest, heq, hmem, hs⟩ := generate_eq_build cfg frame pred symbol s hgen
  obtain ⟨hc, ha⟩ := hpos la hmem
  subst hs
  exact build_signal_ordering cfg symbol _ la.close la.atr _ hcfg hc ha

theorem signal_level_ordering_witness :
    ConfigOk cfgW ∧
    ∃ s, generate cfgW frameW { direction := 1, confidence := 1 } "BTCUSDT" = some s ∧
      (s.side = Side.LONG →
        s.stop < s.entry_a ∧ s.entry_a < s.tp1 ∧ s.tp1 < s.tp2 ∧ s.tp2 < s.tp3 ∧
        ∀ b ∈ s.entry_b, b < s.entry_a) := by
  refine ⟨by with_unfolding_all decide, build_signal cfgW "BTCUSDT" Side.LONG 100 2 1,
    by with_unfolding_all decide, ?_⟩
  exact (signal_level_ordering cfgW frameW { direction := 1, confidence := 1 } "BTCUSDT"
    (build_signal cfgW "BTCUSDT" Side.LONG 100 2 1) (by with_unfolding_all decide)
    (by with_unfolding_all decide) (by with_unfolding_all decide)).1

theorem generate_char (cfg : Config) (frame : List Row) (pred : Prediction)
    (symbol : String) (la pr : Row) (rest : List Row)
    (hrev : frame.reverse = la :: pr :: rest) :
    generate cfg frame pred symbol =
      if frame.length < 10 then none
      else if combined_confidence (get_signal_strength pr la) pred < cfg.MIN_CONFIDENCE then none
      else if la.adx < cfg.MIN_ADX then none
      else if (pred.direction = 1 ∧ (get_signal_strength pr la).net_score ≤ 0) ∨
              (pred.direction = -1 ∧ (get_signal_strength pr la).net_score ≥ 0) then none
      else some (build_signal cfg symbol
        (if pred.direction = 1 then Side.LONG else Side.SHORT)
        la.close la.atr (combined_confidence (get_signal_strength pr la) pred)) := by
  unfold generate
  rw [hrev]

/-- Claim C7: generate returns none whenever a gate fails — combined
confidence (the mean of scorer and predictor confidence) below
MIN_CONFIDENCE, trend strength (the last adx value) below MIN_ADX, or
direction disagreement (predictor +1 with net_score at most 0, predictor -1
with net_score at least 0); and a Signal is returned only when every gate
passes. -/
theorem generate_gates (cfg : Config) (frame : List Row) (pred : Prediction)
    (symbol : String) (la pr : Row) (rest : List Row)
    (hrev : frame.reverse = la :: pr :: rest) :
    (combined_confidence (get_signal_strength pr la) pred < cfg.MIN_CONFIDENCE →
      generate cfg frame pred symbol = none) ∧
    (la.adx < cfg.MIN_ADX → generate cfg frame pred symbol = none) ∧
    ((pred.direction = 1 ∧ (get_signal_strength pr la).net_score ≤ 0) ∨
     (pred.direction = -1 ∧ (get_signal_strength pr la).net_score ≥ 0) →
      generate cfg frame pred symbol = none) ∧
    (∀ s, generate cfg frame pred symbol = some s →
      cfg.MIN_CONFIDENCE ≤ combined_confidence (get_signal_strength pr la) pred ∧
      cfg.MIN_ADX ≤ la.adx ∧
      ¬((pred.direction = 1 ∧ (get_signal_strength pr la).net_score ≤ 0) ∨
        (pred.direction = -1 ∧ (get_signal_strength pr la).net_score ≥ 0))) := by
  have h := generate_char cfg frame pred symbol la pr rest hrev
  refine ⟨?_, ?_, ?_, ?_⟩
  · intro hcc
    rw [h]
    by_cases hlen : frame.length < 10
    · rw [if_pos hlen]
    · rw [if_neg hlen, if_pos hcc]
  · intro hadx
    rw [h]
    by_cases hlen : frame.length < 10
    · rw [if_pos hlen]
    · by_cases hcc : combined_confidence (get_signal_strength pr la) pred < cfg.MIN_CONFIDENCE
      · rw [if_neg hlen, if_pos hcc]
      · rw [if_neg hlen, if_neg hcc, if_pos hadx]
  · intro hdis
    rw [h]
    by_cases hlen : frame.length < 10
    · rw [if_pos hlen]
    · by_cases hcc : combined_confidence (get_signal_strength pr la) pred < cfg.MIN_CONFIDENCE
      · rw [if_neg hlen, if_pos hcc]
      · by_cases hadx : la.adx < cfg.MIN_ADX
        · rw [if_neg hlen, if_neg hcc, if_pos hadx]
        · rw [if_neg hlen, if_neg hcc, if_neg hadx, if_pos hdis]
  · intro s hs
    rw [h] at hs
    by_cases hlen : frame.length < 10
    · rw [if_pos hlen] at hs
      exact absurd hs (by simp)
    · rw [if_neg hlen] at hs
      by_cases hcc : combined_confidence (get_signal_strength pr la) pred < cfg.MIN_CONFIDENCE
      · rw [if_pos hcc] at hs
        exact absurd hs (by simp)
      · rw [if_neg hcc] at hs
        by_cases hadx : la.adx < cfg.MIN_ADX
        · rw [if_pos hadx] at hs
          exact absurd hs (by simp)
        · rw [if_neg hadx] at hs
          by_cases hdis : (pred.direction = 1 ∧ (get_signal_strength pr la).net_score ≤ 0) ∨
              (pred.direction = -1 ∧ (get_signal_strength pr la).net_score ≥ 0)
          · rw [if_pos hdis] at hs
            exact absurd hs (by simp)
          · exact ⟨not_lt.mp hcc, not_lt.mp hadx, hdis⟩

theorem generate_gates_witness :
    generate cfgW frameWeak { direction := 1, confidence := 1 } "BTCUSDT" = none := by
  refine (generate_gates cfgW frameWeak { direction := 1, confidence := 1 } "BTCUSDT"
    rowWeak rowWeak [rowWeak, rowWeak, rowWeak, rowWeak, rowWeak, rowWeak, rowWeak, rowWeak]
    (by with_unfolding_all decide)).2.1 (by with_unfolding_all decide)

/-- Claim C9: when the predictor reports direction 0 (unknown or unfit)
while the combined-confidence and trend-strength gates pass, the
disagreement gate does not fire (it only tests directions +1 and -1) and
generate returns a SHORT signal, whatever the sign of the net score. -/
theorem direction_zero_short (cfg : Config) (frame : List Row) (pred : Prediction)
    (symbol : String) (la pr : Row) (rest : List Row)
    (hrev : frame.reverse = la :: pr :: rest)
    (hlen : 10 ≤ frame.length)
    (hdir : pred.direction = 0)
    (hcc : cfg.MIN_CONFIDENCE ≤ combined_confidence (get_signal_strength pr la) pred)
    (hadx : cfg.MIN_ADX ≤ la.adx) :
    generate cfg frame pred symbol =
      some (build_signal cfg symbol Side.SHORT la.close la.atr
        (combined_confidence (get_signal_strength pr la) pred)) ∧
    ∀ s, generate cfg frame pred symbol = some s → s.side = Side.SHORT := by
  have h := generate_char cfg frame pred symbol la pr rest hrev
  rw [if_neg (not_lt.mpr hlen), if_neg (not_lt.mpr hcc), if_neg (not_lt.mpr hadx)] at h
  rw [if_neg (by simp [hdir]), if_neg (by simp [hdir])] at h
  refine ⟨h, ?_⟩
  intro s hs
  rw [h] at hs
  have := Option.some.inj hs
  rw [← this]
  simp [build_signal]

theorem direction_zero_short_witness :
    generate cfgW frameW { direction := 0, confidence := 0 } "BTCUSDT" =
      some (build_signal cfgW "BTCUSDT" Side.SHORT rowW.close rowW.atr
        (combined_confidence (get_signal_strength rowW rowW) { direction := 0, confidence := 0 })) :=
  (direction_zero_short cfgW frameW { direction := 0, confidence := 0 } "BTCUSDT"
    rowW rowW [rowW, rowW, rowW, rowW, rowW, rowW, rowW, rowW]
    (by with_unfolding_all decide) (by with_unfolding_all decide) rfl
    (by with_unfolding_all decide) (by with_unfolding_all decide)).1

theorem score_conf_formula (prev last : Row) :
    (get_signal_strength prev last).confidence =
      ((((get_signal_strength prev last).bullish_score : ℤ) -
        ((get_signal_strength prev last).bearish_score : ℤ)).natAbs : ℚ) /
        max (((get_signal_strength prev last).bullish_score : ℚ) +
          ((get_signal_strength prev last).bearish_score : ℚ)) 1 := rfl

theorem conf_formula_bound (b r : ℕ) :
    0 ≤ ((((b : ℤ) - (r : ℤ)).natAbs : ℚ)) / max ((b : ℚ) + (r : ℚ)) 1 ∧
    ((((b : ℤ) - (r : ℤ)).natAbs : ℚ)) / max ((b : ℚ) + (r : ℚ)) 1 ≤ 1 := by
  have hd : (0 : ℚ) < max ((b : ℚ) + (r : ℚ)) 1 := lt_max_of_lt_right one_pos
  constructor
  · exact div_nonneg (by positivity) hd.le
  · rw [div_le_one hd]
    have h0 : ((b : ℤ) - (r : ℤ)).natAbs ≤ b + r := by
      simpa using Int.natAbs_sub_le (b : ℤ) (r : ℤ)
    calc ((((b : ℤ) - (r : ℤ)).natAbs : ℚ)) ≤ ((b + r : ℕ) : ℚ) := by exact_mod_cast h0
    _ = (b : ℚ) + (r : ℚ) := by push_cast; ring
    _ ≤ max ((b : ℚ) + (r : ℚ)) 1 := le_max_left _ _

theorem getD_unit_bound (l : List ℚ) (h : ∀ p ∈ l, 0 ≤ p ∧ p ≤ 1) (i : ℕ) :
    0 ≤ l.getD i 0 ∧ l.getD i 0 ≤ 1 := by
  by_cases hi : i < l.length
  · have hm : l.getD i 0 = l.get ⟨i, hi⟩ := by
      simp [List.getD_eq_getElem?_getD, List.getElem?_eq_getElem hi]
    rw [hm]
    exact h _ (l.get_mem _ _)
  · have hm : l.getD i 0 = 0 := by
      simp [List.getD_eq_getElem?_getD, List.getElem?_eq_none (le_of_not_lt hi)]
    rw [hm]
    norm_num

theorem build_signal_confidence (cfg : Config) (symbol : String) (side : Side)
    (price atr conf : ℚ) : (build_signal cfg symbol side price atr conf).confidence = conf := by
  cases side <;> simp [build_signal]

/-- Claim C8: on any two usable rows the scorer confidence equals
abs(bullish - bearish) / max(bullish + bearish, 1) and lies in the unit
interval; the predictor confidence lies in the unit interval whenever the
classifier probabilities do; and every generated Signal carries exactly the
arithmetic mean of the two confidences. -/
theorem confidence_props :
    (∀ prev last : Row,
      (get_signal_strength prev last).confidence =
        ((((get_signal_strength prev last).bullish_score : ℤ) -
          ((get_signal_strength prev last).bearish_score : ℤ)).natAbs : ℚ) /
          max (((get_signal_strength prev last).bullish_score : ℚ) +
            ((get_signal_strength prev last).bearish_score : ℚ)) 1 ∧
      0 ≤ (get_signal_strength prev last).confidence ∧
      (get_signal_strength prev last).confidence ≤ 1) ∧
    (∀ cr : ClassifierResult, ProbsOk cr →
      0 ≤ (predict cr).confidence ∧ (predict cr).confidence ≤ 1) ∧
    (∀ (cfg : Config) (frame : List Row) (pred : Prediction) (symbol : String)
      (s : Signal) (la pr : Row) (rest : List Row),
      frame.reverse = la :: pr :: rest →
      generate cfg frame pred symbol = some s →
      s.confidence = ((get_signal_strength pr la).confidence + pred.confidence) / 2) := by
  refine ⟨?_, ?_, ?_⟩
  · intro prev last
    refine ⟨score_conf_formula prev last, ?_, ?_⟩
    · rw [score_conf_formula prev last]
      exact (conf_formula_bound _ _).1
    · rw [score_conf_formula prev last]
      exact (conf_formula_bound _ _).2
  · intro cr hok
    cases cr with
    | failure =>
      simp [predict]
    | proba classes probs =>
      simp only [ProbsOk] at hok
      have hb : ∀ i : ℕ, 0 ≤ (probs[i]?).getD 0 ∧ (probs[i]?).getD 0 ≤ 1 := by
        intro i
        cases hi : probs[i]? with
        | none => simp
        | some x =>
          have hx : x ∈ probs := List.getElem?_mem hi
          simpa using hok x hx
      simp only [predict]
      by_cases hlen : 2 ≤ probs.length
      · rw [if_pos hlen]
        have h1 : 1 < probs.length := lt_of_lt_of_le one_lt_two hlen
        rcases hil : classes.findIdx? (fun c => decide (c = 1)) with _ | il <;>
          rcases hish : classes.findIdx? (fun c => decide (c = -1)) with _ | ish <;>
          dsimp only <;>
          simp only [if_pos h1, List.getD_eq_getElem?_getD] <;>
          exact ⟨le_max_of_le_left (hb _).1, max_le (hb _).2 (hb _).2⟩
      · rw [if_neg hlen]
        norm_num
  · intro cfg frame pred symbol s la pr rest hrev hgen
    obtain ⟨la2, pr2, rest2, hrev2, _, hs⟩ := generate_eq_build cfg frame pred symbol s hgen
    rw [hrev] at hrev2
    obtain ⟨h1, htl⟩ := List.cons.inj hrev2
    obtain ⟨h2, _⟩ := List.cons.inj htl
    subst h1
    subst h2
    rw [hs, build_signal_confidence]
    rfl

theorem confidence_props_witness :
    ProbsOk (ClassifierResult.proba [-1, 1] [3/10, 7/10]) ∧
    0 ≤ (predict (ClassifierResult.proba [-1, 1] [3/10, 7/10])).confidence ∧
    (predict (ClassifierResult.proba [-1, 1] [3/10, 7/10])).confidence ≤ 1 := by
  have hok : ProbsOk (ClassifierResult.proba [-1, 1] [3/10, 7/10]) := by
    intro p hp
    simp at hp
    rcases hp with h | h <;> rw [h] <;> constructor <;> norm_num
  exact ⟨hok, (confidence_props.2.1 (ClassifierResult.proba [-1, 1] [3/10, 7/10]) hok).1,
    (confidence_props.2.1 (ClassifierResult.proba [-1, 1] [3/10, 7/10]) hok).2⟩

theorem tradeMono_refl (t : Trade) : TradeMono t t :=
  ⟨rfl, rfl, rfl, rfl, rfl, rfl, rfl, rfl, rfl, id, id, id, id⟩

theorem tradeMono_trans {a b c : Trade} (h1 : TradeMono a b) (h2 : TradeMono b c) :
    TradeMono a c :=
  ⟨h2.id_eq.trans h1.id_eq, h2.symbol_eq.trans h1.symbol_eq, h2.side_eq.trans h1.side_eq,
   h2.entry_a_eq.trans h1.entry_a_eq, h2.entry_b_eq.trans h1.entry_b_eq,
   h2.stop_eq.trans h1.stop_eq, h2.tp1_eq.trans h1.tp1_eq, h2.tp2_eq.trans h1.tp2_eq,
   h2.tp3_eq.trans h1.tp3_eq,
   fun h => h2.tp1_mono (h1.tp1_mono h), fun h => h2.tp2_mono (h1.tp2_mono h),
   fun h => h2.tp3_mono (h1.tp3_mono h), fun h => h2.status_mono (h1.status_mono h)⟩

theorem dbMono_refl (db : DB) : DBMono db db := by
  induction db with
  | nil => exact List.Forall₂.nil
  | cons t ts ih => exact List.Forall₂.cons (tradeMono_refl t) ih

theorem dbMono_trans {a b c : DB} (h1 : DBMono a b) (h2 : DBMono b c) : DBMono a c := by
  induction h1 generalizing c with
  | nil => cases h2; exact List.Forall₂.nil
  | cons hab _ ih =>
    cases h2 with
    | cons hbc htail2 => exact List.Forall₂.cons (tradeMono_trans hab hbc) (ih htail2)

theorem dbMono_map (f : Trade → Trade) (hf : ∀ t, TradeMono t (f t)) (db : DB) :
    DBMono db (db.map f) := by
  induction db with
  | nil => exact List.Forall₂.nil
  | cons t ts ih => exact List.Forall₂.cons (hf t) ih

theorem close_trade_mono (db : DB) (i : ℕ) (pnl : ℚ) :
    DBMono db (close_trade db i pnl) := by
  refine dbMono_map _ (fun t => ?_) db
  by_cases h : t.id = i
  · rw [if_pos h]
    exact ⟨rfl, rfl, rfl, rfl, rfl, rfl, rfl, rfl, rfl, id, id, id, fun _ => rfl⟩
  · rw [if_neg h]
    exact tradeMono_refl t

theorem mark_tp_hit_mono (db : DB) (i k : ℕ) : DBMono db (mark_tp_hit db i k) := by
  unfold mark_tp_hit
  by_cases h1 : k = 1
  · rw [if_pos h1]
    refine dbMono_map _ (fun t => ?_) db
    by_cases h : t.id = i
    · rw [if_pos h]
      exact ⟨rfl, rfl, rfl, rfl, rfl, rfl, rfl, rfl, rfl, fun _ => rfl, id, id, id⟩
    · rw [if_neg h]
      exact tradeMono_refl t
  · rw [if_neg h1]
    by_cases h2 : k = 2
    · rw [if_pos h2]
      refine dbMono_map _ (fun t => ?_) db
      by_cases h : t.id = i
      · rw [if_pos h]
        exact ⟨rfl, rfl, rfl, rfl, rfl, rfl, rfl, rfl, rfl, id, fun _ => rfl, id, id⟩
      · rw [if_neg h]
        exact tradeMono_refl t
    · rw [if_neg h2]
      by_cases h3 : k = 3
      · rw [if_pos h3]
        refine dbMono_map _ (fun t => ?_) db
        by_cases h : t.id = i
        · rw [if_pos h]
          exact ⟨rfl, rfl, rfl, rfl, rfl, rfl, rfl, rfl, rfl, id, id, fun _ => rfl, id⟩
        · rw [if_neg h]
          exact tradeMono_refl t
      · rw [if_neg h3]
        exact dbMono_refl db

theorem check_tp_mono (cfg : Config) (t : Trade) (p : ℚ) (k : ℕ) (level : ℚ)
    (closing : Bool) (acc : DB × List Event) :
    DBMono acc.1 (check_tp cfg t p k level closing acc).1 := by
  unfold check_tp
  by_cases h : (tp_hit t level p && !(is_tp_hit acc.1 t.id k)) = true
  · rw [if_pos h]
    cases closing with
    | false => exact mark_tp_hit_mono acc.1 t.id k
    | true =>
      exact dbMono_trans (mark_tp_hit_mono acc.1 t.id k) (close_trade_mono _ t.id _)
  · rw [if_neg h]
    exact dbMono_refl acc.1

theorem check_signal_mono (cfg : Config) (cache : Cache) (db : DB) (t : Trade) :
    DBMono db (check_signal cfg cache db t).db := by
  unfold check_signal
  cases hc : cacheLookup cache t.symbol with
  | none => exact dbMono_refl db
  | some p =>
    dsimp only
    by_cases hp : p = 0
    · rw [if_pos hp]
      exact dbMono_refl db
    · rw [if_neg hp]
      by_cases hs : stop_hit t p = true
      · rw [if_pos hs]
        exact close_trade_mono db t.id _
      · rw [if_neg hs]
        exact dbMono_trans (check_tp_mono cfg t p 1 t.tp1 false (db, []))
          (dbMono_trans (check_tp_mono cfg t p 2 t.tp2 false _)
            (check_tp_mono cfg t p 3 t.tp3 true _))

theorem check_signals_loop_mono (cfg : Config) (cache : Cache) :
    ∀ (ts : List Trade) (db : DB), DBMono db (check_signals_loop cfg cache db ts).db := by
  intro ts
  induction ts with
  | nil => intro db; exact dbMono_refl db
  | cons t ts ih =>
    intro db
    exact dbMono_trans (check_signal_mono cfg cache db t) (ih _)

theorem check_all_signals_mono (cfg : Config) (fetch : String → Option ℚ)
    (cache : Cache) (db : DB) : DBMono db (check_all_signals cfg fetch cache db).db := by
  unfold check_all_signals
  by_cases h : (get_open_trades db).isEmpty = true
  · simp only [h, if_true]
    exact dbMono_refl db
  · simp only [h, if_false]
    exact check_signals_loop_mono cfg _ _ db

theorem run_cycles_mono (cfg : Config) :
    ∀ (fs : List (String → Option ℚ)) (cache : Cache) (db : DB),
      DBMono db (run_cycles cfg cache db fs).db := by
  intro fs
  induction fs with
  | nil => intro cache db; exact dbMono_refl db
  | cons f fs ih =>
    intro cache db
    exact dbMono_trans (check_all_signals_mono cfg f cache db) (ih _ _)

theorem dbMono_ids {db1 db2 : DB} (h : DBMono db1 db2) :
    db2.map (fun t => t.id) = db1.map (fun t => t.id) := by
  induction h with
  | nil => rfl
  | cons hh _ ih => simp [hh.id_eq, ih]

theorem dbMono_mem_right {db1 db2 : DB} (h : DBMono db1 db2) {u : Trade} (hu : u ∈ db2) :
    ∃ t ∈ db1, TradeMono t u := by
  induction h with
  | nil => cases hu
  | cons hh _ ih =>
    rcases List.mem_cons.mp hu with rfl | hu2
    · exact ⟨_, List.mem_cons_self _ _, hh⟩
    · obtain ⟨t, ht1, ht2⟩ := ih hu2
      exact ⟨t, List.mem_cons_of_mem _ ht1, ht2⟩

theorem allClosed_mono {db1 db2 : DB} {i : ℕ} (h : DBMono db1 db2)
    (hc : AllClosedId db1 i) : AllClosedId db2 i := by
  intro r hr hid
  obtain ⟨t, ht, hm⟩ := dbMono_mem_right h hr
  exact hm.status_mono (hc t ht (hm.id_eq ▸ hid))

theorem hasId_mono {db1 db2 : DB} {i : ℕ} (h : DBMono db1 db2) (hi : HasId db1 i) :
    HasId db2 i := by
  obtain ⟨r, hr, hid⟩ := hi
  induction h with
  | nil => cases hr
  | cons hh htail ih =>
    rcases List.mem_cons.mp hr with rfl | hr2
    · exact ⟨_, List.mem_cons_self _ _, hh.id_eq.trans hid⟩
    · obtain ⟨u, hu1, hu2⟩ := ih hr2
      exact ⟨u, List.mem_cons_of_mem _ hu1, hu2⟩

theorem find_map_id (f : Trade → Trade) (hid : ∀ t, (f t).id = t.id) (db : DB) (j : ℕ) :
    (db.map f).find? (fun t => decide (t.id = j)) =
      (db.find? (fun t => decide (t.id = j))).map f := by
  induction db with
  | nil => rfl
  | cons t ts ih =>
    by_cases h : t.id = j
    · rw [List.map_cons, List.find?_cons_of_pos _ (by simp [hid, h]),
        List.find?_cons_of_pos _ (by simp [h])]
      rfl
    · rw [List.map_cons, List.find?_cons_of_neg _ (by simp [hid, h]),
        List.find?_cons_of_neg _ (by simp [h]), ih]

theorem is_tp_hit_close (db : DB) (i : ℕ) (pnl : ℚ) (j k : ℕ) :
    is_tp_hit (close_trade db i pnl) j k = is_tp_hit db j k := by
  unfold is_tp_hit close_trade
  rw [find_map_id _ (fun t => by by_cases h : t.id = i <;> simp [h]) db j]
  cases hf : db.find? (fun t => decide (t.id = j)) with
  | none => rfl
  | some t =>
    dsimp only [Option.map]
    by_cases h : t.id = i <;> simp [h]

theorem is_tp_hit_mark_self (db : DB) (i k : ℕ) (hk : k = 1 ∨ k = 2 ∨ k = 3)
    (hid : HasId db i) : is_tp_hit (mark_tp_hit db i k) i k = true := by
  obtain ⟨r, hr, hri⟩ := hid
  have hfind : ∀ x : Trade, x ∈ db → True := fun _ _ => trivial
  rcases hk with rfl | rfl | rfl
  · unfold mark_tp_hit is_tp_hit
    rw [if_pos rfl, find_map_id _ (fun t => by by_cases h : t.id = i <;> simp [h]) db i]
    cases hf : db.find? (fun t => decide (t.id = i)) with
    | none =>
      exact absurd (by simpa using List.find?_eq_none.mp hf r hr) (by simp [hri])
    | some t =>
      have hti : t.id = i := by simpa using List.find?_some hf
      simp [hti]
  · unfold mark_tp_hit is_tp_hit
    rw [if_neg (by norm_num), if_pos rfl,
      find_map_id _ (fun t => by by_cases h : t.id = i <;> simp [h]) db i]
    cases hf : db.find? (fun t => decide (t.id = i)) with
    | none =>
      exact absurd (by simpa using List.find?_eq_none.mp hf r hr) (by simp [hri])
    | some t =>
      have hti : t.id = i := by simpa using List.find?_some hf
      simp [hti]
  · unfold mark_tp_hit is_tp_hit
    rw [if_neg (by norm_num), if_neg (by norm_num), if_pos rfl,
      find_map_id _ (fun t => by by_cases h : t.id = i <;> simp [h]) db i]
    cases hf : db.find? (fun t => decide (t.id = i)) with
    | none =>
      exact absurd (by simpa using List.find?_eq_none.mp hf r hr) (by simp [hri])
    | some t =>
      have hti : t.id = i := by simpa using List.find?_some hf
      simp [hti]

theorem is_tp_hit_mark_of_ne (db : DB) (i k j kk : ℕ) (h : ¬ i = j ∨ ¬ k = kk) :
    is_tp_hit (mark_tp_hit db i k) j kk = is_tp_hit db j kk := by
  unfold mark_tp_hit
  by_cases h1 : k = 1
  · subst h1
    rw [if_pos rfl]
    unfold is_tp_hit
    rw [find_map_id _ (fun t => by by_cases hti : t.id = i <;> simp [hti]) db j]
    cases hf : db.find? (fun t => decide (t.id = j)) with
    | none => rfl
    | some t =>
      have htj : t.id = j := by simpa using List.find?_some hf
      dsimp only [Option.map]
      by_cases hti : t.id = i
      · have hij : i = j := hti ▸ htj
        have hkk : ¬ (1 : ℕ) = kk := h.resolve_left (by simp [hij])
        have hkkr : ¬ kk = 1 := fun hc => hkk hc.symm
        simp [hti, hkkr]
      · simp [hti]
  · rw [if_neg h1]
    by_cases h2 : k = 2
    · subst h2
      rw [if_pos rfl]
      unfold is_tp_hit
      rw [find_map_id _ (fun t => by by_cases hti : t.id = i <;> simp [hti]) db j]
      cases hf : db.find? (fun t => decide (t.id = j)) with
      | none => rfl
      | some t =>
        have htj : t.id = j := by simpa using List.find?_some hf
        dsimp only [Option.map]
        by_cases hti : t.id = i
        · have hij : i = j := hti ▸ htj
          have hkk : ¬ (2 : ℕ) = kk := h.resolve_left (by simp [hij])
          by_cases hkk1 : kk = 1
          · simp [hti, hkk1]
          · have hkkr : ¬ kk = 2 := fun hc => hkk hc.symm
            simp [hti, hkk1, hkkr]
        · simp [hti]
    · rw [if_neg h2]
      by_cases h3 : k = 3
      · subst h3
        rw [if_pos rfl]
        unfold is_tp_hit
        rw [find_map_id _ (fun t => by by_cases hti : t.id = i <;> simp [hti]) db j]
        cases hf : db.find? (fun t => decide (t.id = j)) with
        | none => rfl
        | some t =>
          have htj : t.id = j := by simpa using List.find?_some hf
          dsimp only [Option.map]
          by_cases hti : t.id = i
          · have hij : i = j := hti ▸ htj
            have hkk : ¬ (3 : ℕ) = kk := h.resolve_left (by simp [hij])
            by_cases hkk1 : kk = 1
            · simp [hti, hkk1]
            · by_cases hkk2 : kk = 2
              · simp [hti, hkk1, hkk2]
              · have hkkr : ¬ kk = 3 := fun hc => hkk hc.symm
                simp [hti, hkk1, hkk2, hkkr]
          · simp [hti]
      · rw [if_neg h3]

theorem dbMono_find {db1 db2 : DB} (h : DBMono db1 db2) (j : ℕ) :
    (db1.find? (fun t => decide (t.id = j)) = none ∧
     db2.find? (fun t => decide (t.id = j)) = none) ∨
    (∃ a b, db1.find? (fun t => decide (t.id = j)) = some a ∧
      db2.find? (fun t => decide (t.id = j)) = some b ∧ TradeMono a b) := by
  induction h with
  | nil => exact Or.inl ⟨rfl, rfl⟩
  | cons hh htail ih =>
    rename_i a b as bs
    by_cases hj : a.id = j
    · have hbj : b.id = j := hh.id_eq.trans hj
      exact Or.inr ⟨a, b, List.find?_cons_of_pos _ (by simp [hj]),
        List.find?_cons_of_pos _ (by simp [hbj]), hh⟩
    · have hbj : ¬ b.id = j := fun hb => hj (hh.id_eq.symm.trans hb)
      rw [List.find?_cons_of_neg _ (by simp [hj]), List.find?_cons_of_neg _ (by simp [hbj])]
      exact ih

theorem is_tp_hit_mono {db1 db2 : DB} (h : DBMono db1 db2) (j k : ℕ)
    (ht : is_tp_hit db1 j k = true) : is_tp_hit db2 j k = true := by
  unfold is_tp_hit at ht ⊢
  rcases dbMono_find h j with ⟨h1, h2⟩ | ⟨a, b, h1, h2, hm⟩
  · rw [h1] at ht
    exact absurd ht (by simp)
  · rw [h1] at ht
    rw [h2]
    by_cases hk1 : k = 1
    · subst hk1
      simp only [if_pos rfl] at ht ⊢
      exact hm.tp1_mono ht
    · by_cases hk2 : k = 2
      · subst hk2
        simp only [if_neg (by norm_num : ¬ (2:ℕ) = 1), if_pos rfl] at ht ⊢
        exact hm.tp2_mono ht
      · by_cases hk3 : k = 3
        · subst hk3
          simp only [if_neg (by norm_num : ¬ (3:ℕ) = 1), if_neg (by norm_num : ¬ (3:ℕ) = 2),
            if_pos rfl] at ht ⊢
          exact hm.tp3_mono ht
        · simp only [if_neg hk1, if_neg hk2, if_neg hk3] at ht
          exact absurd ht (by simp)

theorem hasId_close (db : DB) (i : ℕ) (pnl : ℚ) {j : ℕ} (h : HasId db j) :
    HasId (close_trade db i pnl) j :=
  hasId_mono (close_trade_mono db i pnl) h

theorem hasId_mark (db : DB) (i k : ℕ) {j : ℕ} (h : HasId db j) :
    HasId (mark_tp_hit db i k) j :=
  hasId_mono (mark_tp_hit_mono db i k) h

theorem close_closes (db : DB) (i : ℕ) (pnl : ℚ) : AllClosedId (close_trade db i pnl) i := by
  intro r hr hid
  obtain ⟨r0, hr0, hfr⟩ := List.mem_map.mp hr
  by_cases h : r0.id = i
  · rw [← hfr]
    simp [h]
  · rw [← hfr] at hid
    rw [if_neg h] at hid
    exact absurd hid h

theorem check_tp_mem {cfg : Config} {t : Trade} {p : ℚ} {k : ℕ} {level : ℚ}
    {closing : Bool} {acc : DB × List Event} {ev : Event}
    (h : ev ∈ (check_tp cfg t p k level closing acc).2) :
    ev ∈ acc.2 ∨
    (ev.signal = t ∧ ev.etype = tp_etype k ∧ ev.hit_price = p ∧
      tp_hit t level p = true ∧ is_tp_hit acc.1 t.id k = false ∧
      ev.pnl = calculate_pnl (calculate_weighted_entry cfg t.entry_a t.entry_b) level
        (trade_is_long t)) := by
  unfold check_tp at h
  by_cases hg : (tp_hit t level p && !(is_tp_hit acc.1 t.id k)) = true
  · rw [if_pos hg] at h
    obtain ⟨htp, hflag⟩ : tp_hit t level p = true ∧ is_tp_hit acc.1 t.id k = false := by
      simpa using hg
    rcases List.mem_append.mp h with h2 | h2
    · exact Or.inl h2
    · have hev := List.mem_singleton.mp h2
      subst hev
      exact Or.inr ⟨rfl, rfl, rfl, htp, hflag, rfl⟩
  · rw [if_neg hg] at h
    exact Or.inl h

theorem check_tp_flag (cfg : Config) (t : Trade) (p : ℚ) (k : ℕ) (level : ℚ)
    (closing : Bool) (acc : DB × List Event) (hk : k = 1 ∨ k = 2 ∨ k = 3)
    (hid : HasId acc.1 t.id) (htp : tp_hit t level p = true) :
    is_tp_hit (check_tp cfg t p k level closing acc).1 t.id k = true := by
  unfold check_tp
  by_cases hg : (tp_hit t level p && !(is_tp_hit acc.1 t.id k)) = true
  · rw [if_pos hg]
    dsimp only
    cases closing with
    | false =>
      rw [if_neg (by simp)]
      exact is_tp_hit_mark_self acc.1 t.id k hk hid
    | true =>
      rw [if_pos rfl, is_tp_hit_close]
      exact is_tp_hit_mark_self acc.1 t.id k hk hid
  · rw [if_neg hg]
    simpa [htp] using hg

theorem check_tp_flag_flip {cfg : Config} {t : Trade} {p : ℚ} {k : ℕ} {level : ℚ}
    {closing : Bool} {acc : DB × List Event} {j kk : ℕ}
    (h : is_tp_hit (check_tp cfg t p k level closing acc).1 j kk = true) :
    is_tp_hit acc.1 j kk = true ∨
    (j = t.id ∧ kk = k ∧
      (check_tp cfg t p k level closing acc).2 =
        acc.2 ++ [{ etype := tp_etype k, signal := t, hit_price := p,
                    pnl := calculate_pnl (calculate_weighted_entry cfg t.entry_a t.entry_b)
                      level (trade_is_long t) }]) := by
  unfold check_tp at h ⊢
  by_cases hg : (tp_hit t level p && !(is_tp_hit acc.1 t.id k)) = true
  · rw [if_pos hg] at h ⊢
    dsimp only at h ⊢
    by_cases hj : t.id = j
    · by_cases hkk : k = kk
      · exact Or.inr ⟨hj.symm, hkk.symm, rfl⟩
      · left
        cases closing with
        | false =>
          rw [if_neg (by simp)] at h
          rwa [is_tp_hit_mark_of_ne acc.1 t.id k j kk (Or.inr hkk)] at h
        | true =>
          rw [if_pos rfl] at h
          rwa [is_tp_hit_close, is_tp_hit_mark_of_ne acc.1 t.id k j kk (Or.inr hkk)] at h
    · left
      cases closing with
      | false =>
        rw [if_neg (by simp)] at h
        rwa [is_tp_hit_mark_of_ne acc.1 t.id k j kk (Or.inl hj)] at h
      | true =>
        rw [if_pos rfl] at h
        rwa [is_tp_hit_close, is_tp_hit_mark_of_ne acc.1 t.id k j kk (Or.inl hj)] at h
  · rw [if_neg hg] at h
    exact Or.inl h

theorem check_tp_blocked {cfg : Config} {t : Trade} {p : ℚ} {k : ℕ} {level : ℚ}
    {closing : Bool} {acc : DB × List Event}
    (hflag : is_tp_hit acc.1 t.id k = true) :
    check_tp cfg t p k level closing acc = acc := by
  unfold check_tp
  rw [if_neg (by simp [hflag])]

theorem check_signal_skip (cfg : Config) (cache : Cache) (db : DB) (t : Trade)
    (h : cacheLookup cache t.symbol = none ∨ cacheLookup cache t.symbol = some 0) :
    check_signal cfg cache db t = ⟨db, [], none⟩ := by
  unfold check_signal
  rcases h with h | h
  · rw [h]
  · rw [h]
    dsimp only
    rw [if_pos rfl]

theorem check_signal_event_mem {cfg : Config} {cache : Cache} {db : DB} {t : Trade}
    {ev : Event} (h : ev ∈ (check_signal cfg cache db t).notified) :
    ev.signal = t ∧
    ∃ p, cacheLookup cache t.symbol = some p ∧ ¬ p = 0 ∧ ev.hit_price = p ∧
      (ev.etype = EType.STOP_LOSS ∧ stop_hit t p = true ∨
        ∃ k, (k = 1 ∨ k = 2 ∨ k = 3) ∧ ev.etype = tp_etype k ∧
          is_tp_hit db t.id k = false) := by
  unfold check_signal at h
  cases hc : cacheLookup cache t.symbol with
  | none =>
    rw [hc] at h
    cases h
  | some p =>
    rw [hc] at h
    dsimp only at h
    by_cases hp : p = 0
    · rw [if_pos hp] at h
      cases h
    · rw [if_neg hp] at h
      by_cases hs : stop_hit t p = true
      · rw [if_pos hs] at h
        dsimp only at h
        have hev := List.mem_singleton.mp h
        subst hev
        exact ⟨rfl, p, rfl, hp, rfl, Or.inl ⟨rfl, hs⟩⟩
      · rw [if_neg hs] at h
        dsimp only at h
        have hm1 := check_tp_mono cfg t p 1 t.tp1 false (db, [])
        have hm2 := check_tp_mono cfg t p 2 t.tp2 false
          (check_tp cfg t p 1 t.tp1 false (db, []))
        rcases check_tp_mem h with h2 | hlast
        · rcases check_tp_mem h2 with h1 | hmid
          · rcases check_tp_mem h1 with h0 | hfirst
            · cases h0
            · obtain ⟨hsig, hety, hhp, _, hflag, _⟩ := hfirst
              exact ⟨hsig, p, rfl, hp, hhp, Or.inr ⟨1, Or.inl rfl, hety, hflag⟩⟩
          · obtain ⟨hsig, hety, hhp, _, hflag, _⟩ := hmid
            have hdb : is_tp_hit db t.id 2 = false := by
              cases hf : is_tp_hit db t.id 2 with
              | false => rfl
              | true => rw [is_tp_hit_mono hm1 t.id 2 hf] at hflag; cases hflag
            exact ⟨hsig, p, rfl, hp, hhp, Or.inr ⟨2, Or.inr (Or.inl rfl), hety, hdb⟩⟩
        · obtain ⟨hsig, hety, hhp, _, hflag, _⟩ := hlast
          have hdb : is_tp_hit db t.id 3 = false := by
            cases hf : is_tp_hit db t.id 3 with
            | false => rfl
            | true =>
              rw [is_tp_hit_mono hm2 t.id 3 (is_tp_hit_mono hm1 t.id 3 hf)] at hflag
              cases hflag
          exact ⟨hsig, p, rfl, hp, hhp, Or.inr ⟨3, Or.inr (Or.inr rfl), hety, hdb⟩⟩

theorem check_signal_returned_mem {cfg : Config} {cache : Cache} {db : DB} {t : Trade}
    {ev : Event} (h : ev ∈ (check_signal cfg cache db t).returned.toList) :
    ev ∈ (check_signal cfg cache db t).notified := by
  unfold check_signal at h ⊢
  cases hc : cacheLookup cache t.symbol with
  | none =>
    rw [hc] at h
    cases h
  | some p =>
    rw [hc] at h
    dsimp only at h ⊢
    by_cases hp : p = 0
    · rw [if_pos hp] at h
      cases h
    · rw [if_neg hp] at h ⊢
      by_cases hs : stop_hit t p = true
      · rw [if_pos hs] at h ⊢
        simpa using h
      · rw [if_neg hs] at h ⊢
        dsimp only at h ⊢
        cases hl : (check_tp cfg t p 3 t.tp3 true
            (check_tp cfg t p 2 t.tp2 false
              (check_tp cfg t p 1 t.tp1 false (db, [])))).2 with
        | nil =>
          rw [hl] at h
          cases h
        | cons e rest =>
          rw [hl] at h
          have : ev = e := by simpa using h
          subst this
          exact List.mem_cons_self _ _

theorem check_signal_event_done {cfg : Config} {cache : Cache} {db : DB} {t : Trade}
    {ev : Event} (h : ev ∈ (check_signal cfg cache db t).notified)
    (hid : HasId db t.id) :
    Done (check_signal cfg cache db t).db t.id ev.etype := by
  unfold check_signal at h ⊢
  cases hc : cacheLookup cache t.symbol with
  | none =>
    rw [hc] at h
    cases h
  | some p =>
    rw [hc] at h
    dsimp only at h ⊢
    by_cases hp : p = 0
    · rw [if_pos hp] at h
      cases h
    · rw [if_neg hp] at h ⊢
      by_cases hs : stop_hit t p = true
      · rw [if_pos hs] at h ⊢
        dsimp only at h ⊢
        have hev := List.mem_singleton.mp h
        subst hev
        exact close_closes db t.id _
      · rw [if_neg hs] at h ⊢
        dsimp only at h ⊢
        have hm1 := check_tp_mono cfg t p 1 t.tp1 false (db, [])
        have hm2 := check_tp_mono cfg t p 2 t.tp2 false
          (check_tp cfg t p 1 t.tp1 false (db, []))
        have hm3 := check_tp_mono cfg t p 3 t.tp3 true
          (check_tp cfg t p 2 t.tp2 false (check_tp cfg t p 1 t.tp1 false (db, [])))
        rcases check_tp_mem h with h2 | hlast
        · rcases check_tp_mem h2 with h1 | hmid
          · rcases check_tp_mem h1 with h0 | hfirst
            · cases h0
            · obtain ⟨_, hety, _, htp, _, _⟩ := hfirst
              rw [hety]
              show is_tp_hit _ t.id 1 = true
              refine is_tp_hit_mono hm3 t.id 1 (is_tp_hit_mono hm2 t.id 1 ?_)
              exact check_tp_flag cfg t p 1 t.tp1 false (db, []) (Or.inl rfl) hid htp
          · obtain ⟨_, hety, _, htp, _, _⟩ := hmid
            rw [hety]
            show is_tp_hit _ t.id 2 = true
            refine is_tp_hit_mono hm3 t.id 2 ?_
            exact check_tp_flag cfg t p 2 t.tp2 false _ (Or.inr (Or.inl rfl))
              (hasId_mono hm1 hid) htp
        · obtain ⟨_, hety, _, htp, _, _⟩ := hlast
          rw [hety]
          show is_tp_hit _ t.id 3 = true
          exact check_tp_flag cfg t p 3 t.tp3 true _ (Or.inr (Or.inr rfl))
            (hasId_mono (dbMono_trans hm1 hm2) hid) htp

theorem check_tp_noop {cfg : Config} {t : Trade} {p : ℚ} {k : ℕ} {level : ℚ}
    {closing : Bool} {acc : DB × List Event}
    (h : tp_hit t level p = false ∨ is_tp_hit acc.1 t.id k = true) :
    check_tp cfg t p k level closing acc = acc := by
  unfold check_tp
  rcases h with h | h
  · rw [if_neg (by simp [h])]
  · rw [if_neg (by simp [h])]

theorem settled_mono {cache : Cache} {db db2 : DB} {t : Trade}
    (hm : DBMono db db2) (hs : Settled cache db t) : Settled cache db2 t := by
  intro p hc hp
  obtain ⟨h1, h2⟩ := hs p hc hp
  refine ⟨fun hstop => allClosed_mono hm (h1 hstop), fun hns => ?_⟩
  obtain ⟨g1, g2, g3⟩ := h2 hns
  exact ⟨fun h => is_tp_hit_mono hm t.id 1 (g1 h),
    fun h => is_tp_hit_mono hm t.id 2 (g2 h),
    fun h => is_tp_hit_mono hm t.id 3 (g3 h)⟩

theorem settled_congr {cache : Cache} {db : DB} {t u : Trade}
    (htu : TradeMono t u) (hs : Settled cache db t) : Settled cache db u := by
  intro p hc hp
  rw [htu.symbol_eq] at hc
  obtain ⟨h1, h2⟩ := hs p hc hp
  have hstop : stop_hit u p = stop_hit t p := by
    unfold stop_hit trade_is_long
    rw [htu.side_eq, htu.stop_eq]
  have htp : ∀ lv : ℚ, tp_hit u lv p = tp_hit t lv p := by
    intro lv
    unfold tp_hit trade_is_long
    rw [htu.side_eq]
  constructor
  · intro hu
    rw [hstop] at hu
    rw [htu.id_eq]
    exact h1 hu
  · intro hu
    rw [hstop] at hu
    obtain ⟨g1, g2, g3⟩ := h2 hu
    rw [htu.id_eq, htu.tp1_eq, htu.tp2_eq, htu.tp3_eq]
    exact ⟨fun h => g1 ((htp t.tp1) ▸ h), fun h => g2 ((htp t.tp2) ▸ h),
      fun h => g3 ((htp t.tp3) ▸ h)⟩

theorem check_signal_establishes (cfg : Config) (cache : Cache) (db : DB) (t : Trade)
    (hid : HasId db t.id) : Settled cache (check_signal cfg cache db t).db t := by
  intro p hc hp
  unfold check_signal
  rw [hc]
  dsimp only
  rw [if_neg hp]
  by_cases hs : stop_hit t p = true
  · rw [if_pos hs]
    refine ⟨fun _ => close_closes db t.id _, fun hns => ?_⟩
    rw [hns] at hs
    cases hs
  · rw [if_neg hs]
    dsimp only
    refine ⟨fun hstop => absurd hstop hs, fun _ => ?_⟩
    have hm1 := check_tp_mono cfg t p 1 t.tp1 false (db, [])
    have hm2 := check_tp_mono cfg t p 2 t.tp2 false
      (check_tp cfg t p 1 t.tp1 false (db, []))
    have hm3 := check_tp_mono cfg t p 3 t.tp3 true
      (check_tp cfg t p 2 t.tp2 false (check_tp cfg t p 1 t.tp1 false (db, [])))
    refine ⟨fun h1 => ?_, fun h2 => ?_, fun h3 => ?_⟩
    · exact is_tp_hit_mono hm3 t.id 1 (is_tp_hit_mono hm2 t.id 1
        (check_tp_flag cfg t p 1 t.tp1 false (db, []) (Or.inl rfl) hid h1))
    · exact is_tp_hit_mono hm3 t.id 2
        (check_tp_flag cfg t p 2 t.tp2 false _ (Or.inr (Or.inl rfl))
          (hasId_mono hm1 hid) h2)
    · exact check_tp_flag cfg t p 3 t.tp3 true _ (Or.inr (Or.inr rfl))
        (hasId_mono (dbMono_trans hm1 hm2) hid) h3

theorem check_signal_of_settled (cfg : Config) (cache : Cache) (db : DB) (t : Trade)
    (hset : Settled cache db t) (htmem : t ∈ db) (hopen : t.status = Status.OPEN) :
    check_signal cfg cache db t = ⟨db, [], none⟩ := by
  unfold check_signal
  cases hc : cacheLookup cache t.symbol with
  | none => rfl
  | some p =>
    dsimp only
    by_cases hp : p = 0
    · rw [if_pos hp]
    · rw [if_neg hp]
      obtain ⟨hstop, htp⟩ := hset p hc hp
      by_cases hs : stop_hit t p = true
      · have hcl := hstop hs t htmem rfl
        rw [hopen] at hcl
        cases hcl
      · rw [if_neg hs]
        obtain ⟨g1, g2, g3⟩ := htp (by
          cases hb : stop_hit t p with
          | false => rfl
          | true => exact absurd hb hs)
        have e1 : check_tp cfg t p 1 t.tp1 false (db, []) = (db, []) := by
          refine check_tp_noop ?_
          cases hb : tp_hit t t.tp1 p with
          | false => exact Or.inl rfl
          | true => exact Or.inr (g1 hb)
        have e2 : check_tp cfg t p 2 t.tp2 false (db, []) = (db, []) := by
          refine check_tp_noop ?_
          cases hb : tp_hit t t.tp2 p with
          | false => exact Or.inl rfl
          | true => exact Or.inr (g2 hb)
        have e3 : check_tp cfg t p 3 t.tp3 true (db, []) = (db, []) := by
          refine check_tp_noop ?_
          cases hb : tp_hit t t.tp3 p with
          | false => exact Or.inl rfl
          | true => exact Or.inr (g3 hb)
        rw [e1, e2, e3]
        rfl

theorem check_signals_loop_cons (cfg : Config) (cache : Cache) (db : DB) (t : Trade)
    (ts : List Trade) :
    check_signals_loop cfg cache db (t :: ts) =
      ⟨(check_signals_loop cfg cache (check_signal cfg cache db t).db ts).db,
       (check_signal cfg cache db t).notified ++
         (check_signals_loop cfg cache (check_signal cfg cache db t).db ts).notified,
       (check_signal cfg cache db t).returned.toList ++
         (check_signals_loop cfg cache (check_signal cfg cache db t).db ts).results⟩ := rfl

theorem loop_events_signal {cfg : Config} {cache : Cache} :
    ∀ {ts : List Trade} {db : DB} {ev : Event},
      ev ∈ (check_signals_loop cfg cache db ts).notified → ∃ t ∈ ts, ev.signal = t := by
  intro ts
  induction ts with
  | nil =>
    intro db ev h
    cases h
  | cons t ts ih =>
    intro db ev h
    rw [check_signals_loop_cons] at h
    rcases List.mem_append.mp h with h1 | h2
    · exact ⟨t, List.mem_cons_self _ _, (check_signal_event_mem h1).1⟩
    · obtain ⟨u, hu1, hu2⟩ := ih h2
      exact ⟨u, List.mem_cons_of_mem _ hu1, hu2⟩

theorem loop_results_sub {cfg : Config} {cache : Cache} :
    ∀ {ts : List Trade} {db : DB} {ev : Event},
      ev ∈ (check_signals_loop cfg cache db ts).results →
        ev ∈ (check_signals_loop cfg cache db ts).notified := by
  intro ts
  induction ts with
  | nil =>
    intro db ev h
    cases h
  | cons t ts ih =>
    intro db ev h
    rw [check_signals_loop_cons] at h ⊢
    rcases List.mem_append.mp h with h1 | h2
    · exact List.mem_append.mpr (Or.inl (check_signal_returned_mem h1))
    · exact List.mem_append.mpr (Or.inr (ih h2))

theorem loop_settles {cfg : Config} {cache : Cache} :
    ∀ {ts : List Trade} {db : DB}, (∀ t ∈ ts, HasId db t.id) →
      ∀ t ∈ ts, Settled cache (check_signals_loop cfg cache db ts).db t := by
  intro ts
  induction ts with
  | nil =>
    intro db _ t ht
    cases ht
  | cons u ts ih =>
    intro db hids t ht
    rw [check_signals_loop_cons]
    rcases List.mem_cons.mp ht with rfl | ht2
    · refine settled_mono (check_signals_loop_mono cfg cache ts _) ?_
      exact check_signal_establishes cfg cache db t (hids t (List.mem_cons_self _ _))
    · refine ih (fun v hv => ?_) t ht2
      exact hasId_mono (check_signal_mono cfg cache db u)
        (hids v (List.mem_cons_of_mem _ hv))

theorem loop_noop {cfg : Config} {cache : Cache} :
    ∀ {ts : List Trade} {db : DB},
      (∀ t ∈ ts, check_signal cfg cache db t = ⟨db, [], none⟩) →
      check_signals_loop cfg cache db ts = ⟨db, [], []⟩ := by
  intro ts
  induction ts with
  | nil =>
    intro db _
    rfl
  | cons t ts ih =>
    intro db hall
    rw [check_signals_loop_cons, hall t (List.mem_cons_self _ _)]
    dsimp only
    rw [ih (fun u hu => hall u (List.mem_cons_of_mem _ hu))]
    rfl

theorem loop_no_id_events {cfg : Config} {cache : Cache} {ts : List Trade} {db : DB}
    {i : ℕ} (hno : ∀ t ∈ ts, ¬ t.id = i) :
    ∀ ev ∈ (check_signals_loop cfg cache db ts).notified, ¬ ev.signal.id = i := by
  intro ev hev hid
  obtain ⟨t, ht, hsig⟩ := loop_events_signal hev
  exact hno t ht (hsig ▸ hid)

theorem tp_etype_ne_stop (k : ℕ) : ¬ tp_etype k = EType.STOP_LOSS := by
  unfold tp_etype
  by_cases h1 : k = 1
  · simp [h1]
  · by_cases h2 : k = 2 <;> simp [h1, h2]

theorem tp_etype_inj {k kk : ℕ} (hk : k = 1 ∨ k = 2 ∨ k = 3)
    (hkk : kk = 1 ∨ kk = 2 ∨ kk = 3) (h : tp_etype k = tp_etype kk) : k = kk := by
  rcases hk with rfl | rfl | rfl <;> rcases hkk with rfl | rfl | rfl <;>
    first
      | rfl
      | exact absurd h (by decide)

theorem loop_tp_blocked {cfg : Config} {cache : Cache} {i k : ℕ}
    (hk : k = 1 ∨ k = 2 ∨ k = 3) :
    ∀ {ts : List Trade} {db : DB}, is_tp_hit db i k = true →
      ∀ ev ∈ (check_signals_loop cfg cache db ts).notified,
        ¬ (ev.signal.id = i ∧ ev.etype = tp_etype k) := by
  intro ts
  induction ts with
  | nil =>
    intro db _ ev hev
    cases hev
  | cons t ts ih =>
    intro db hflag ev hev
    rw [check_signals_loop_cons] at hev
    rintro ⟨hevi, hevty⟩
    rcases List.mem_append.mp hev with h1 | h2
    · obtain ⟨hsig, p, _, _, _, hshape⟩ := check_signal_event_mem h1
      rcases hshape with ⟨hstop, _⟩ | ⟨kk, hkk, hty, hguard⟩
      · rw [hevty] at hstop
        exact tp_etype_ne_stop k hstop
      · have : kk = k := tp_etype_inj hkk hk (hty.symm.trans hevty)
        subst this
        rw [hsig] at hevi
        rw [hevi] at hguard
        rw [hflag] at hguard
        cases hguard
    · exact ih (is_tp_hit_mono (check_signal_mono cfg cache db t) i k hflag) ev h2
        ⟨hevi, hevty⟩

theorem check_tp_shape (cfg : Config) (t : Trade) (p : ℚ) (k : ℕ) (level : ℚ)
    (closing : Bool) (acc : DB × List Event) :
    (check_tp cfg t p k level closing acc).2 = acc.2 ∨
    ∃ e : Event, e.etype = tp_etype k ∧
      (check_tp cfg t p k level closing acc).2 = acc.2 ++ [e] := by
  unfold check_tp
  by_cases hg : (tp_hit t level p && !(is_tp_hit acc.1 t.id k)) = true
  · rw [if_pos hg]
    exact Or.inr ⟨_, rfl, rfl⟩
  · rw [if_neg hg]
    exact Or.inl rfl

theorem pairwise_ne_filter_le (l : List Event) (ty : EType)
    (h : List.Pairwise (fun a b => ¬ a.etype = b.etype) l) :
    (l.filter (fun e => decide (e.etype = ty))).length ≤ 1 := by
  induction l with
  | nil => simp
  | cons a l ih =>
    rw [List.pairwise_cons] at h
    by_cases hv : a.etype = ty
    · rw [List.filter_cons_of_pos (by simp [hv])]
      have hnil : l.filter (fun e => decide (e.etype = ty)) = [] := by
        rw [List.filter_eq_nil_iff]
        intro b hb
        simp only [decide_eq_true_eq]
        intro hbty
        exact h.1 b hb (hv.trans hbty.symm)
      rw [hnil]
      simp
    · rw [List.filter_cons_of_neg (by simp [hv])]
      exact ih h.2

theorem check_signal_type_count (cfg : Config) (cache : Cache) (db : DB) (t : Trade)
    (ty : EType) :
    ((check_signal cfg cache db t).notified.filter
      (fun e => decide (e.etype = ty))).length ≤ 1 := by
  refine pairwise_ne_filter_le _ ty ?_
  unfold check_signal
  cases hc : cacheLookup cache t.symbol with
  | none => exact List.Pairwise.nil
  | some p =>
    dsimp only
    by_cases hp : p = 0
    · rw [if_pos hp]
      exact List.Pairwise.nil
    · rw [if_neg hp]
      by_cases hs : stop_hit t p = true
      · rw [if_pos hs]
        simp
      · rw [if_neg hs]
        dsimp only
        rcases check_tp_shape cfg t p 3 t.tp3 true
            (check_tp cfg t p 2 t.tp2 false (check_tp cfg t p 1 t.tp1 false (db, []))) with
          h3 | ⟨e3, he3, h3⟩
        · rcases check_tp_shape cfg t p 2 t.tp2 false
              (check_tp cfg t p 1 t.tp1 false (db, [])) with h2 | ⟨e2, he2, h2⟩
          · rcases check_tp_shape cfg t p 1 t.tp1 false (db, []) with h1 | ⟨e1, he1, h1⟩
            · rw [h3, h2, h1]
              simp
            · rw [h3, h2, h1]
              simp
          · rcases check_tp_shape cfg t p 1 t.tp1 false (db, []) with h1 | ⟨e1, he1, h1⟩
            · rw [h3, h2, h1]
              simp
            · rw [h3, h2, h1]
              simp [List.pairwise_append, List.pairwise_cons, he1, he2, tp_etype]
        · rcases check_tp_shape cfg t p 2 t.tp2 false
              (check_tp cfg t p 1 t.tp1 false (db, [])) with h2 | ⟨e2, he2, h2⟩
          · rcases check_tp_shape cfg t p 1 t.tp1 false (db, []) with h1 | ⟨e1, he1, h1⟩
            · rw [h3, h2, h1]
              simp
            · rw [h3, h2, h1]
              simp [List.pairwise_append, List.pairwise_cons, he1, he3, tp_etype]
          · rcases check_tp_shape cfg t p 1 t.tp1 false (db, []) with h1 | ⟨e1, he1, h1⟩
            · rw [h3, h2, h1]
              simp [List.pairwise_append, List.pairwise_cons, he2, he3, tp_etype]
            · rw [h3, h2, h1]
              simp [List.pairwise_append, List.pairwise_cons, he1, he2, he3, tp_etype]

theorem loop_once {cfg : Config} {cache : Cache} :
    ∀ {ts : List Trade} {db : DB} {i : ℕ} {ty : EType},
      (ts.map (fun t => t.id)).Nodup →
      ((check_signals_loop cfg cache db ts).notified.filter
        (fun e => decide (e.signal.id = i) && decide (e.etype = ty))).length ≤ 1 := by
  intro ts
  induction ts with
  | nil =>
    intro db i ty _
    simp [check_signals_loop]
  | cons t ts ih =>
    intro db i ty hnd
    rw [List.map_cons, List.nodup_cons] at hnd
    obtain ⟨hnotin, hnd2⟩ := hnd
    rw [check_signals_loop_cons]
    dsimp only
    rw [List.filter_append, List.length_append]
    by_cases hti : t.id = i
    · have htail : ((check_signals_loop cfg cache (check_signal cfg cache db t).db
          ts).notified.filter
            (fun e => decide (e.signal.id = i) && decide (e.etype = ty))) = [] := by
        rw [List.filter_eq_nil_iff]
        intro ev hev
        obtain ⟨u, hu, hsig⟩ := loop_events_signal hev
        simp only [Bool.and_eq_true, decide_eq_true_eq, not_and]
        intro hevi _
        rw [hsig] at hevi
        rw [← hti] at hevi
        exact hnotin (hevi ▸ List.mem_map_of_mem (fun t => t.id) hu)
      rw [htail]
      simp only [List.length_nil, Nat.add_zero]
      have hff : ((check_signal cfg cache db t).notified.filter
          (fun e => decide (e.signal.id = i) && decide (e.etype = ty))) =
          (((check_signal cfg cache db t).notified.filter
            (fun e => decide (e.etype = ty))).filter
              (fun e => decide (e.signal.id = i))) := by
        rw [List.filter_filter]
      calc ((check_signal cfg cache db t).notified.filter
          (fun e => decide (e.signal.id = i) && decide (e.etype = ty))).length
          = (((check_signal cfg cache db t).notified.filter
            (fun e => decide (e.etype = ty))).filter
              (fun e => decide (e.signal.id = i))).length := by rw [hff]
        _ ≤ ((check_signal cfg cache db t).notified.filter
            (fun e => decide (e.etype = ty))).length := List.length_filter_le _ _
        _ ≤ 1 := check_signal_type_count cfg cache db t ty
    · have hhead : ((check_signal cfg cache db t).notified.filter
          (fun e => decide (e.signal.id = i) && decide (e.etype = ty))) = [] := by
        rw [List.filter_eq_nil_iff]
        intro ev hev
        have hsig := (check_signal_event_mem hev).1
        simp only [Bool.and_eq_true, decide_eq_true_eq, not_and]
        intro hevi _
        rw [hsig] at hevi
        exact hti hevi
      rw [hhead]
      simp only [List.length_nil, Nat.zero_add]
      exact ih hnd2

theorem done_mono {db db2 : DB} {i : ℕ} {ty : EType} (h : DBMono db db2) :
    Done db i ty → Done db2 i ty := by
  cases ty with
  | STOP_LOSS => exact allClosed_mono h
  | TP1 => exact is_tp_hit_mono h i 1
  | TP2 => exact is_tp_hit_mono h i 2
  | TP3_FULL => exact is_tp_hit_mono h i 3

theorem mem_open_trades {db : DB} {t : Trade} (h : t ∈ get_open_trades db) :
    t ∈ db ∧ t.status = Status.OPEN := by
  have := List.mem_filter.mp h
  exact ⟨this.1, by simpa using this.2⟩

theorem open_trades_hasId {db : DB} : ∀ t ∈ get_open_trades db, HasId db t.id :=
  fun t ht => ⟨t, (mem_open_trades ht).1, rfl⟩

theorem loop_event_done {cfg : Config} {cache : Cache} :
    ∀ {ts : List Trade} {db : DB} {ev : Event}, (∀ t ∈ ts, HasId db t.id) →
      ev ∈ (check_signals_loop cfg cache db ts).notified →
      Done (check_signals_loop cfg cache db ts).db ev.signal.id ev.etype := by
  intro ts
  induction ts with
  | nil =>
    intro db ev _ hev
    cases hev
  | cons t ts ih =>
    intro db ev hids hev
    rw [check_signals_loop_cons] at hev ⊢
    rcases List.mem_append.mp hev with h1 | h2
    · have hd := check_signal_event_done h1 (hids t (List.mem_cons_self _ _))
      have hsig : ev.signal = t := (check_signal_event_mem h1).1
      rw [hsig]
      exact done_mono (check_signals_loop_mono cfg cache ts _) hd
    · exact ih (fun u hu => hasId_mono (check_signal_mono cfg cache db t)
        (hids u (List.mem_cons_of_mem _ hu))) h2

theorem check_all_char (cfg : Config) (fetch : String → Option ℚ) (cache : Cache)
    (db : DB) :
    ((get_open_trades db).isEmpty = true ∧
      check_all_signals cfg fetch cache db = ⟨cache, db, [], []⟩) ∨
    (¬ (get_open_trades db).isEmpty = true ∧
      check_all_signals cfg fetch cache db =
        ⟨update_prices fetch cache ((get_open_trades db).map (fun t => t.symbol)).eraseDups,
         (check_signals_loop cfg
           (update_prices fetch cache ((get_open_trades db).map (fun t => t.symbol)).eraseDups)
           db (get_open_trades db)).db,
         (check_signals_loop cfg
           (update_prices fetch cache ((get_open_trades db).map (fun t => t.symbol)).eraseDups)
           db (get_open_trades db)).notified,
         (check_signals_loop cfg
           (update_prices fetch cache ((get_open_trades db).map (fun t => t.symbol)).eraseDups)
           db (get_open_trades db)).results⟩) := by
  unfold check_all_signals
  by_cases h : (get_open_trades db).isEmpty = true
  · left
    rw [if_pos h]
    exact ⟨h, rfl⟩
  · right
    rw [if_neg h]
    exact ⟨h, rfl⟩

theorem cycle_event_done {cfg : Config} {fetch : String → Option ℚ} {cache : Cache}
    {db : DB} {ev : Event} (h : ev ∈ (check_all_signals cfg fetch cache db).notified) :
    Done (check_all_signals cfg fetch cache db).db ev.signal.id ev.etype := by
  rcases check_all_char cfg fetch cache db with ⟨_, heq⟩ | ⟨_, heq⟩
  · rw [heq] at h
    cases h
  · rw [heq] at h ⊢
    exact loop_event_done open_trades_hasId h

theorem cycle_blocked {cfg : Config} {fetch : String → Option ℚ} {cache : Cache}
    {db : DB} {i : ℕ} {ty : EType} (hd : Done db i ty) :
    ∀ ev ∈ (check_all_signals cfg fetch cache db).notified,
      ¬ (ev.signal.id = i ∧ ev.etype = ty) := by
  rcases check_all_char cfg fetch cache db with ⟨_, heq⟩ | ⟨_, heq⟩
  · rw [heq]
    intro ev hev
    cases hev
  · rw [heq]
    cases ty with
    | STOP_LOSS =>
      intro ev hev hiv
      have hno : ∀ t ∈ get_open_trades db, ¬ t.id = i := by
        intro t ht hid
        obtain ⟨hmem, hopen⟩ := mem_open_trades ht
        have := hd t hmem hid
        rw [hopen] at this
        cases this
      exact loop_no_id_events hno ev hev hiv.1
    | TP1 =>
      intro ev hev hiv
      exact loop_tp_blocked (Or.inl rfl) hd ev hev ⟨hiv.1, by simpa [tp_etype] using hiv.2⟩
    | TP2 =>
      intro ev hev hiv
      exact loop_tp_blocked (Or.inr (Or.inl rfl)) hd ev hev
        ⟨hiv.1, by simpa [tp_etype] using hiv.2⟩
    | TP3_FULL =>
      intro ev hev hiv
      exact loop_tp_blocked (Or.inr (Or.inr rfl)) hd ev hev
        ⟨hiv.1, by simpa [tp_etype] using hiv.2⟩

theorem cycle_once {cfg : Config} {fetch : String → Option ℚ} {cache : Cache}
    {db : DB} {i : ℕ} {ty : EType} (hnd : (db.map (fun t => t.id)).Nodup) :
    ((check_all_signals cfg fetch cache db).notified.filter
      (fun e => decide (e.signal.id = i) && decide (e.etype = ty))).length ≤ 1 := by
  rcases check_all_char cfg fetch cache db with ⟨_, heq⟩ | ⟨_, heq⟩
  · rw [heq]
    simp
  · rw [heq]
    refine loop_once ?_
    exact hnd.sublist (List.Sublist.map _ (List.filter_sublist db))

theorem run_cycles_cons (cfg : Config) (cache : Cache) (db : DB)
    (f : String → Option ℚ) (fs : List (String → Option ℚ)) :
    run_cycles cfg cache db (f :: fs) =
      ⟨(run_cycles cfg (check_all_signals cfg f cache db).cache
          (check_all_signals cfg f cache db).db fs).cache,
       (run_cycles cfg (check_all_signals cfg f cache db).cache
          (check_all_signals cfg f cache db).db fs).db,
       (check_all_signals cfg f cache db).notified ++
         (run_cycles cfg (check_all_signals cfg f cache db).cache
            (check_all_signals cfg f cache db).db fs).notified,
       (check_all_signals cfg f cache db).results ++
         (run_cycles cfg (check_all_signals cfg f cache db).cache
            (check_all_signals cfg f cache db).db fs).results⟩ := rfl

theorem cycle_results_sub {cfg : Config} {fetch : String → Option ℚ} {cache : Cache}
    {db : DB} {ev : Event} (h : ev ∈ (check_all_signals cfg fetch cache db).results) :
    ev ∈ (check_all_signals cfg fetch cache db).notified := by
  rcases check_all_char cfg fetch cache db with ⟨_, heq⟩ | ⟨_, heq⟩
  · rw [heq] at h
    cases h
  · rw [heq] at h ⊢
    exact loop_results_sub h

theorem run_results_sub {cfg : Config} :
    ∀ {fs : List (String → Option ℚ)} {cache : Cache} {db : DB} {ev : Event},
      ev ∈ (run_cycles cfg cache db fs).results →
      ev ∈ (run_cycles cfg cache db fs).notified := by
  intro fs
  induction fs with
  | nil =>
    intro cache db ev h
    cases h
  | cons f fs ih =>
    intro cache db ev h
    rw [run_cycles_cons] at h ⊢
    rcases List.mem_append.mp h with h1 | h2
    · exact List.mem_append.mpr (Or.inl (cycle_results_sub h1))
    · exact List.mem_append.mpr (Or.inr (ih h2))

theorem run_no_id_events {cfg : Config} :
    ∀ {fs : List (String → Option ℚ)} {cache : Cache} {db : DB} {i : ℕ},
      AllClosedId db i →
      ∀ ev ∈ (run_cycles cfg cache db fs).notified, ¬ ev.signal.id = i := by
  intro fs
  induction fs with
  | nil =>
    intro cache db i _ ev hev
    cases hev
  | cons f fs ih =>
    intro cache db i hall ev hev
    rw [run_cycles_cons] at hev
    rcases List.mem_append.mp hev with h1 | h2
    · rcases check_all_char cfg f cache db with ⟨_, heq⟩ | ⟨_, heq⟩
      · rw [heq] at h1
        cases h1
      · rw [heq] at h1
        refine loop_no_id_events ?_ ev h1
        intro t ht hid
        obtain ⟨hmem, hopen⟩ := mem_open_trades ht
        have := hall t hmem hid
        rw [hopen] at this
        cases this
    · exact ih (allClosed_mono (check_all_signals_mono cfg f cache db) hall) ev h2

theorem done_blocks_run {cfg : Config} :
    ∀ {fs : List (String → Option ℚ)} {cache : Cache} {db : DB} {i : ℕ} {ty : EType},
      Done db i ty →
      ∀ ev ∈ (run_cycles cfg cache db fs).notified,
        ¬ (ev.signal.id = i ∧ ev.etype = ty) := by
  intro fs
  induction fs with
  | nil =>
    intro cache db i ty _ ev hev
    cases hev
  | cons f fs ih =>
    intro cache db i ty hd ev hev
    rw [run_cycles_cons] at hev
    rcases List.mem_append.mp hev with h1 | h2
    · exact cycle_blocked hd ev h1
    · exact ih (done_mono (check_all_signals_mono cfg f cache db) hd) ev h2

theorem run_once {cfg : Config} :
    ∀ {fs : List (String → Option ℚ)} {cache : Cache} {db : DB} {i : ℕ} {ty : EType},
      (db.map (fun t => t.id)).Nodup →
      ((run_cycles cfg cache db fs).notified.filter
        (fun e => decide (e.signal.id = i) && decide (e.etype = ty))).length ≤ 1 := by
  intro fs
  induction fs with
  | nil =>
    intro cache db i ty _
    simp [run_cycles]
  | cons f fs ih =>
    intro cache db i ty hnd
    rw [run_cycles_cons]
    dsimp only
    rw [List.filter_append, List.length_append]
    have hnd2 : ((check_all_signals cfg f cache db).db.map (fun t => t.id)).Nodup := by
      rw [dbMono_ids (check_all_signals_mono cfg f cache db)]
      exact hnd
    cases hcyc : (check_all_signals cfg f cache db).notified.filter
        (fun e => decide (e.signal.id = i) && decide (e.etype = ty)) with
    | nil =>
      simp only [List.length_nil, Nat.zero_add]
      exact ih hnd2
    | cons e rest =>
      have hemem : e ∈ (check_all_signals cfg f cache db).notified.filter
          (fun e => decide (e.signal.id = i) && decide (e.etype = ty)) := by
        rw [hcyc]
        exact List.mem_cons_self _ _
      have he := List.mem_filter.mp hemem
      obtain ⟨hei, hety⟩ : e.signal.id = i ∧ e.etype = ty := by
        have := he.2
        simpa using this
      have hdone : Done (check_all_signals cfg f cache db).db i ty := by
        have := cycle_event_done he.1
        rw [hei, hety] at this
        exact this
      have hrest0 : ((run_cycles cfg (check_all_signals cfg f cache db).cache
          (check_all_signals cfg f cache db).db fs).notified.filter
            (fun e => decide (e.signal.id = i) && decide (e.etype = ty))) = [] := by
        rw [List.filter_eq_nil_iff]
        intro ev hev
        have hblock := done_blocks_run hdone ev hev
        simp only [Bool.and_eq_true, decide_eq_true_eq, not_and]
        intro h1 h2
        exact hblock ⟨h1, h2⟩
      rw [hrest0]
      have hc1 := @cycle_once cfg f cache db i ty hnd
      rw [hcyc] at hc1
      simpa using hc1

theorem check_tp_mem_mono {cfg : Config} {t : Trade} {p : ℚ} {k : ℕ} {level : ℚ}
    {closing : Bool} {acc : DB × List Event} {ev : Event} (h : ev ∈ acc.2) :
    ev ∈ (check_tp cfg t p k level closing acc).2 := by
  unfold check_tp
  by_cases hg : (tp_hit t level p && !(is_tp_hit acc.1 t.id k)) = true
  · rw [if_pos hg]
    exact List.mem_append.mpr (Or.inl h)
  · rw [if_neg hg]
    exact h

theorem check_signal_flag_flip {cfg : Config} {cache : Cache} {db : DB} {t : Trade}
    {j k : ℕ} (h : is_tp_hit (check_signal cfg cache db t).db j k = true) :
    is_tp_hit db j k = true ∨
    ∃ ev ∈ (check_signal cfg cache db t).notified,
      ev.signal.id = j ∧ ev.etype = tp_etype k := by
  unfold check_signal at h ⊢
  cases hc : cacheLookup cache t.symbol with
  | none =>
    rw [hc] at h
    exact Or.inl h
  | some p =>
    rw [hc] at h
    dsimp only at h ⊢
    by_cases hp : p = 0
    · rw [if_pos hp] at h ⊢
      exact Or.inl h
    · rw [if_neg hp] at h ⊢
      by_cases hs : stop_hit t p = true
      · rw [if_pos hs] at h ⊢
        dsimp only at h
        rw [is_tp_hit_close] at h
        exact Or.inl h
      · rw [if_neg hs] at h ⊢
        dsimp only at h ⊢
        rcases check_tp_flag_flip h with h2 | ⟨hj, hkk, hev⟩
        · rcases check_tp_flag_flip h2 with h1 | ⟨hj, hkk, hev⟩
          · rcases check_tp_flag_flip h1 with h0 | ⟨hj, hkk, hev⟩
            · exact Or.inl h0
            · subst hkk
              refine Or.inr ⟨{ etype := tp_etype 1, signal := t, hit_price := p,
                               pnl := calculate_pnl
                                 (calculate_weighted_entry cfg t.entry_a t.entry_b)
                                 t.tp1 (trade_is_long t) }, ?_, by simp [hj], rfl⟩
              refine check_tp_mem_mono (check_tp_mem_mono ?_)
              rw [hev]
              exact List.mem_append.mpr (Or.inr (List.mem_singleton_self _))
          · subst hkk
            refine Or.inr ⟨{ etype := tp_etype 2, signal := t, hit_price := p,
                             pnl := calculate_pnl
                               (calculate_weighted_entry cfg t.entry_a t.entry_b)
                               t.tp2 (trade_is_long t) }, ?_, by simp [hj], rfl⟩
            refine check_tp_mem_mono ?_
            rw [hev]
            exact List.mem_append.mpr (Or.inr (List.mem_singleton_self _))
        · subst hkk
          refine Or.inr ⟨{ etype := tp_etype 3, signal := t, hit_price := p,
                           pnl := calculate_pnl
                             (calculate_weighted_entry cfg t.entry_a t.entry_b)
                             t.tp3 (trade_is_long t) }, ?_, by simp [hj], rfl⟩
          rw [hev]
          exact List.mem_append.mpr (Or.inr (List.mem_singleton_self _))

theorem loop_flag_flip {cfg : Config} {cache : Cache} {j k : ℕ} :
    ∀ {ts : List Trade} {db : DB},
      is_tp_hit (check_signals_loop cfg cache db ts).db j k = true →
      is_tp_hit db j k = true ∨
      ∃ ev ∈ (check_signals_loop cfg cache db ts).notified,
        ev.signal.id = j ∧ ev.etype = tp_etype k := by
  intro ts
  induction ts with
  | nil =>
    intro db h
    exact Or.inl h
  | cons t ts ih =>
    intro db h
    rw [check_signals_loop_cons] at h ⊢
    rcases ih h with h2 | ⟨ev, hev, hevp⟩
    · rcases check_signal_flag_flip h2 with h1 | ⟨ev, hev, hevp⟩
      · exact Or.inl h1
      · exact Or.inr ⟨ev, List.mem_append.mpr (Or.inl hev), hevp⟩
    · exact Or.inr ⟨ev, List.mem_append.mpr (Or.inr hev), hevp⟩

theorem loop_results_once {cfg : Config} {cache : Cache} :
    ∀ {ts : List Trade} {db : DB} {i : ℕ},
      (ts.map (fun t => t.id)).Nodup →
      ((check_signals_loop cfg cache db ts).results.filter
        (fun e => decide (e.signal.id = i))).length ≤ 1 := by
  intro ts
  induction ts with
  | nil =>
    intro db i _
    simp [check_signals_loop]
  | cons t ts ih =>
    intro db i hnd
    rw [List.map_cons, List.nodup_cons] at hnd
    obtain ⟨hnotin, hnd2⟩ := hnd
    rw [check_signals_loop_cons]
    dsimp only
    rw [List.filter_append, List.length_append]
    by_cases hti : t.id = i
    · have htail : ((check_signals_loop cfg cache (check_signal cfg cache db t).db
          ts).results.filter (fun e => decide (e.signal.id = i))) = [] := by
        rw [List.filter_eq_nil_iff]
        intro ev hev
        obtain ⟨u, hu, hsig⟩ := loop_events_signal (loop_results_sub hev)
        simp only [decide_eq_true_eq]
        intro hevi
        rw [hsig] at hevi
        rw [← hti] at hevi
        exact hnotin (hevi ▸ List.mem_map_of_mem (fun t => t.id) hu)
      rw [htail]
      simp only [List.length_nil, Nat.add_zero]
      calc ((check_signal cfg cache db t).returned.toList.filter
          (fun e => decide (e.signal.id = i))).length
          ≤ (check_signal cfg cache db t).returned.toList.length :=
            List.length_filter_le _ _
        _ ≤ 1 := by cases (check_signal cfg cache db t).returned <;> simp
    · have hhead : ((check_signal cfg cache db t).returned.toList.filter
          (fun e => decide (e.signal.id = i))) = [] := by
        rw [List.filter_eq_nil_iff]
        intro ev hev
        have hsig := (check_signal_event_mem (check_signal_returned_mem hev)).1
        simp only [decide_eq_true_eq]
        intro hevi
        rw [hsig] at hevi
        exact hti hevi
      rw [hhead]
      simp only [List.length_nil, Nat.zero_add]
      exact ih hnd2

theorem check_signal_event_pnl {cfg : Config} {cache : Cache} {db : DB} {t : Trade}
    {ev : Event} (h : ev ∈ (check_signal cfg cache db t).notified) :
    ev.pnl = calculate_pnl (calculate_weighted_entry cfg t.entry_a t.entry_b)
      (exit_level ev.etype t) (trade_is_long t) := by
  unfold check_signal at h
  cases hc : cacheLookup cache t.symbol with
  | none =>
    rw [hc] at h
    cases h
  | some p =>
    rw [hc] at h
    dsimp only at h
    by_cases hp : p = 0
    · rw [if_pos hp] at h
      cases h
    · rw [if_neg hp] at h
      by_cases hs : stop_hit t p = true
      · rw [if_pos hs] at h
        dsimp only at h
        have hev := List.mem_singleton.mp h
        subst hev
        rfl
      · rw [if_neg hs] at h
        dsimp only at h
        rcases check_tp_mem h with h2 | hlast
        · rcases check_tp_mem h2 with h1 | hmid
          · rcases check_tp_mem h1 with h0 | hfirst
            · cases h0
            · obtain ⟨_, hety, _, _, _, hpnl⟩ := hfirst
              rw [hpnl, hety]
              rfl
          · obtain ⟨_, hety, _, _, _, hpnl⟩ := hmid
            rw [hpnl, hety]
            rfl
        · obtain ⟨_, hety, _, _, _, hpnl⟩ := hlast
          rw [hpnl, hety]
          rfl

theorem find_filter_ne (s0 s : String) (h : ¬ s0 = s) :
    ∀ c : Cache,
      (c.filter (fun e => decide (¬ e.1 = s0))).find? (fun e => decide (e.1 = s)) =
        c.find? (fun e => decide (e.1 = s)) := by
  intro c
  induction c with
  | nil => rfl
  | cons e es ih =>
    by_cases he : e.1 = s0
    · rw [List.filter_cons_of_neg (by simp [he]), ih,
        List.find?_cons_of_neg _ (by simp only [decide_eq_true_eq]; rw [he]; exact h)]
    · rw [List.filter_cons_of_pos (by simp [he])]
      by_cases hes : e.1 = s
      · rw [List.find?_cons_of_pos _ (by simp [hes]), List.find?_cons_of_pos _ (by simp [hes])]
      · rw [List.find?_cons_of_neg _ (by simp [hes]), List.find?_cons_of_neg _ (by simp [hes]),
          ih]

theorem cacheLookup_insert_ne (c : Cache) (s0 : String) (p0 : ℚ) (s : String)
    (h : ¬ s0 = s) : cacheLookup (cacheInsert c s0 p0) s = cacheLookup c s := by
  unfold cacheInsert cacheLookup
  rw [List.find?_cons_of_neg _ (by simp [h]), find_filter_ne s0 s h c]

theorem update_prices_failure (fetch : String → Option ℚ) :
    ∀ (syms : List String) (cache : Cache) (s : String),
      get_current_price fetch s ≤ 0 →
      cacheLookup (update_prices fetch cache syms) s = cacheLookup cache s := by
  intro syms
  induction syms with
  | nil =>
    intro cache s _
    rfl
  | cons s0 rest ih =>
    intro cache s hfail
    unfold update_prices
    dsimp only
    by_cases hpos : 0 < get_current_price fetch s0
    · rw [if_pos hpos]
      rw [ih _ s hfail]
      refine cacheLookup_insert_ne cache s0 _ s ?_
      intro hss
      rw [hss] at hpos
      exact absurd (lt_of_lt_of_le hpos hfail) (lt_irrefl 0)
    · rw [if_neg hpos]
      exact ih _ s hfail

theorem cacheLookup_pos {c : Cache} {s : String} {p : ℚ}
    (hc : ∀ e ∈ c, 0 < e.2) (h : cacheLookup c s = some p) : 0 < p := by
  unfold cacheLookup at h
  cases hf : c.find? (fun e => decide (e.1 = s)) with
  | none =>
    rw [hf] at h
    cases h
  | some e =>
    rw [hf] at h
    have he : e ∈ c := List.mem_of_find?_eq_some hf
    have : e.2 = p := by simpa using h
    rw [← this]
    exact hc e he

theorem cacheInsert_pos {c : Cache} {s : String} {p : ℚ}
    (hc : ∀ e ∈ c, 0 < e.2) (hp : 0 < p) :
    ∀ e ∈ cacheInsert c s p, 0 < e.2 := by
  intro e he
  unfold cacheInsert at he
  rcases List.mem_cons.mp he with rfl | he2
  · exact hp
  · exact hc e (List.mem_of_mem_filter he2)

theorem update_prices_pos (fetch : String → Option ℚ) :
    ∀ (syms : List String) (cache : Cache), (∀ e ∈ cache, 0 < e.2) →
      ∀ e ∈ update_prices fetch cache syms, 0 < e.2 := by
  intro syms
  induction syms with
  | nil =>
    intro cache hc
    exact hc
  | cons s0 rest ih =>
    intro cache hc
    unfold update_prices
    dsimp only
    by_cases hpos : 0 < get_current_price fetch s0
    · rw [if_pos hpos]
      exact ih _ (cacheInsert_pos hc hpos)
    · rw [if_neg hpos]
      exact ih _ hc

theorem loop_hit_price_pos {cfg : Config} {cache : Cache}
    (hc : ∀ e ∈ cache, 0 < e.2) :
    ∀ {ts : List Trade} {db : DB} {ev : Event},
      ev ∈ (check_signals_loop cfg cache db ts).notified → 0 < ev.hit_price := by
  intro ts
  induction ts with
  | nil =>
    intro db ev hev
    cases hev
  | cons t ts ih =>
    intro db ev hev
    rw [check_signals_loop_cons] at hev
    rcases List.mem_append.mp hev with h1 | h2
    · obtain ⟨_, p, hlk, _, hhp, _⟩ := check_signal_event_mem h1
      rw [hhp]
      exact cacheLookup_pos hc hlk
    · exact ih h2

/-- Claim C4: once a tracked position's status has become CLOSED (by a stop
or a TP3 close), no later check cycle ever emits any further event for it —
closed rows are filtered out by get_open_trades — whatever prices later
cycles fetch. -/
theorem closed_no_further_events (cfg : Config) (cache : Cache) (db : DB) (t : Trade)
    (fetches : List (String → Option ℚ))
    (hnd : (db.map (fun r => r.id)).Nodup) (ht : t ∈ db)
    (hcl : t.status = Status.CLOSED) :
    (∀ ev ∈ (run_cycles cfg cache db fetches).notified, ¬ ev.signal.id = t.id) ∧
    (∀ ev ∈ (run_cycles cfg cache db fetches).results, ¬ ev.signal.id = t.id) := by
  have hall : AllClosedId db t.id := by
    intro r hr hid
    have heq : r = t := List.inj_on_of_nodup_map hnd hr ht hid
    rw [heq]
    exact hcl
  exact ⟨run_no_id_events hall,
    fun ev hev => run_no_id_events hall ev (run_results_sub hev)⟩

set_option maxRecDepth 100000 in
theorem closed_no_further_events_witness :
    ¬ ({ etype := EType.STOP_LOSS, signal := tradeLate, hit_price := 100,
         pnl := calculate_pnl
           (calculate_weighted_entry cfgW tradeLate.entry_a tradeLate.entry_b)
           tradeLate.stop (trade_is_long tradeLate) } : Event).signal.id = tradeDone.id :=
  (closed_no_further_events cfgW [] [tradeDone, tradeLate] tradeDone [fOne]
    (by with_unfolding_all decide) (by with_unfolding_all decide)
    (by with_unfolding_all decide)).1 _ (by with_unfolding_all decide)

/-- Claim C5: running the per-signal check loop a second time with the same
cached prices on the store state left by the first run emits nothing at all
(so in particular no duplicate), and across arbitrarily many cycles at most
one event of each type is ever emitted per trade id: each hit flag, once
true, is never reset, and a close removes the row from every later cycle. -/
theorem checkAll_idempotent (cfg : Config) (cache : Cache) (db : DB) :
    ((check_signals_loop cfg cache
        (check_signals_loop cfg cache db (get_open_trades db)).db
        (get_open_trades
          (check_signals_loop cfg cache db (get_open_trades db)).db)).notified = [] ∧
     (check_signals_loop cfg cache
        (check_signals_loop cfg cache db (get_open_trades db)).db
        (get_open_trades
          (check_signals_loop cfg cache db (get_open_trades db)).db)).results = []) ∧
    (∀ (fetches : List (String → Option ℚ)) (i : ℕ) (ty : EType),
      (db.map (fun r => r.id)).Nodup →
      ((run_cycles cfg cache db fetches).notified.filter
        (fun e => decide (e.signal.id = i) && decide (e.etype = ty))).length ≤ 1) := by
  constructor
  · have hsettled : ∀ u ∈ get_open_trades
        (check_signals_loop cfg cache db (get_open_trades db)).db,
        check_signal cfg cache
          (check_signals_loop cfg cache db (get_open_trades db)).db u =
          ⟨(check_signals_loop cfg cache db (get_open_trades db)).db, [], none⟩ := by
      intro u hu
      obtain ⟨humem, huopen⟩ := mem_open_trades hu
      obtain ⟨u0, hu0mem, hmono⟩ :=
        dbMono_mem_right (check_signals_loop_mono cfg cache (get_open_trades db) db) humem
      have hu0open : u0.status = Status.OPEN := by
        cases h0 : u0.status with
        | OPEN => rfl
        | CLOSED =>
          have := hmono.status_mono h0
          rw [huopen] at this
          cases this
      have hu0in : u0 ∈ get_open_trades db :=
        List.mem_filter.mpr ⟨hu0mem, by simp [hu0open]⟩
      have hset0 : Settled cache
          (check_signals_loop cfg cache db (get_open_trades db)).db u0 :=
        loop_settles open_trades_hasId u0 hu0in
      exact check_signal_of_settled cfg cache _ u (settled_congr hmono hset0) humem huopen
    rw [loop_noop hsettled]
    exact ⟨rfl, rfl⟩
  · intro fetches i ty hnd
    exact run_once hnd

set_option maxRecDepth 100000 in
theorem checkAll_idempotent_witness :
    ((run_cycles cfgW [] [tradeW] [fOne]).notified.filter
      (fun e => decide (e.signal.id = 1) && decide (e.etype = EType.TP1))).length ≤ 1 :=
  (checkAll_idempotent cfgW [] [tradeW]).2 [fOne] 1 EType.TP1
    (by with_unfolding_all decide)

/-- Claim C6: the weighted entry is entry_a when entry_b is absent and
entry_a times weight A plus entry_b times weight B otherwise (the configured
split summing to 1), and every event's pnl is (exit - weighted)/weighted x
100 for LONG and (weighted - exit)/weighted x 100 for SHORT, the exit being
the triggered level's own price. -/
theorem weighted_entry_pnl (cfg : Config)
    (_hw : cfg.POSITION_SIZE_A + cfg.POSITION_SIZE_B = 1) :
    (∀ a : ℚ, calculate_weighted_entry cfg a none = a) ∧
    (∀ a b : ℚ, calculate_weighted_entry cfg a (some b) =
      a * cfg.POSITION_SIZE_A + b * cfg.POSITION_SIZE_B) ∧
    (∀ (cache : Cache) (db : DB) (t : Trade) (ev : Event),
      ev ∈ (check_signal cfg cache db t).notified →
      (t.side = Side.LONG →
        ev.pnl = (exit_level ev.etype t -
            calculate_weighted_entry cfg t.entry_a t.entry_b) /
          calculate_weighted_entry cfg t.entry_a t.entry_b * 100) ∧
      (t.side = Side.SHORT →
        ev.pnl = (calculate_weighted_entry cfg t.entry_a t.entry_b -
            exit_level ev.etype t) /
          calculate_weighted_entry cfg t.entry_a t.entry_b * 100)) := by
  refine ⟨fun a => rfl, fun a b => rfl, ?_⟩
  intro cache db t ev hev
  have hpnl := check_signal_event_pnl hev
  constructor
  · intro hlong
    rw [hpnl]
    unfold calculate_pnl trade_is_long
    rw [hlong]
    simp
  · intro hshort
    rw [hpnl]
    unfold calculate_pnl trade_is_long
    rw [hshort]
    simp

set_option maxRecDepth 100000 in
theorem weighted_entry_pnl_witness :
    calculate_weighted_entry cfgW 100 (some 98) = 497/5 ∧
    ({ etype := EType.TP1, signal := tradeW, hit_price := 105,
       pnl := calculate_pnl
         (calculate_weighted_entry cfgW tradeW.entry_a tradeW.entry_b)
         tradeW.tp1 (trade_is_long tradeW) } : Event).pnl =
      (exit_level EType.TP1 tradeW -
          calculate_weighted_entry cfgW tradeW.entry_a tradeW.entry_b) /
        calculate_weighted_entry cfgW tradeW.entry_a tradeW.entry_b * 100 := by
  constructor
  · rw [(weighted_entry_pnl cfgW (by with_unfolding_all decide)).2.1 100 98]
    with_unfolding_all decide
  · exact ((weighted_entry_pnl cfgW (by with_unfolding_all decide)).2.2
      [("BTC", 105)] [tradeW] tradeW _ (by with_unfolding_all decide)).1
      (by with_unfolding_all decide)

/-- Claim C2 (amended): a price fetch that fails (raises, i.e. yields the
0.0 sentinel) or returns a non-positive price leaves that symbol's existing
cache entry unchanged — the tracker's cache is an instance attribute that
persists across cycles rather than being rebuilt from scratch, so a price
cached in an earlier cycle is reused — and only a position whose symbol has
no cached price at all is skipped, with no event and no mutation. -/
theorem fetch_failure_amended (cfg : Config) (fetch : String → Option ℚ)
    (cache : Cache) (db : DB) :
    (∀ (syms : List String) (s : String),
      fetch s = none ∨ (∃ q, fetch s = some q ∧ q ≤ 0) →
      cacheLookup (update_prices fetch cache syms) s = cacheLookup cache s) ∧
    (∀ t : Trade, cacheLookup cache t.symbol = none →
      check_signal cfg cache db t = ⟨db, [], none⟩) := by
  constructor
  · intro syms s hf
    refine update_prices_failure fetch syms cache s ?_
    rcases hf with hf | ⟨q, hq, hq0⟩
    · unfold get_current_price
      rw [hf]
      exact le_refl 0
    · unfold get_current_price
      rw [hq]
      exact hq0
  · intro t h
    exact check_signal_skip cfg cache db t (Or.inl h)

set_option maxRecDepth 100000 in
theorem fetch_failure_amended_witness :
    cacheLookup (update_prices fNone [("BTC", 100)] ["BTC"]) "BTC" =
      cacheLookup [("BTC", 100)] "BTC" ∧
    check_signal cfgW [] [] tradeW = ⟨[], [], none⟩ :=
  ⟨(fetch_failure_amended cfgW fNone [("BTC", 100)] []).1 ["BTC"] "BTC" (Or.inl rfl),
   (fetch_failure_amended cfgW fNone [] []).2 tradeW (by with_unfolding_all decide)⟩

set_option maxRecDepth 100000 in
/-- Claim C2 counterexample: price 100 for BTC is cached during a first
cycle; a later cycle whose every fetch raises still evaluates a newly opened
BTC position against that stale price — a STOP_LOSS event is emitted and
the trade is closed on a cycle whose fetch failed — and the cache after the
failing cycle still holds the old entry rather than being rebuilt from
scratch. -/
theorem stale_price_cex :
    (check_all_signals cfgW fOne [] [tradeQuiet]).notified = [] ∧
    (check_all_signals cfgW fOne [] [tradeQuiet]).cache = [("BTC", 100)] ∧
    ((check_all_signals cfgW fNone (check_all_signals cfgW fOne [] [tradeQuiet]).cache
        ((check_all_signals cfgW fOne [] [tradeQuiet]).db ++ [tradeLate])).notified.map
      (fun e => (e.etype, e.signal.id, e.hit_price))) = [(EType.STOP_LOSS, 2, 100)] ∧
    ((check_all_signals cfgW fNone (check_all_signals cfgW fOne [] [tradeQuiet]).cache
        ((check_all_signals cfgW fOne [] [tradeQuiet]).db ++ [tradeLate])).db.map
      (fun t => (t.id, t.status))) = [(1, Status.OPEN), (2, Status.CLOSED)] ∧
    (check_all_signals cfgW fNone (check_all_signals cfgW fOne [] [tradeQuiet]).cache
        ((check_all_signals cfgW fOne [] [tradeQuiet]).db ++ [tradeLate])).cache =
      [("BTC", 100)] := by
  with_unfolding_all decide

/-- Claim C3 (amended): the list returned by checkAll carries at most one
event per position per cycle — the stop event, or the first newly hit
take-profit in the order TP1, TP2, TP3 — while every transition performed is
notified: the returned events are a subset of the notified ones, and every
take-profit flag newly set during the cycle has a notified event. -/
theorem results_amended (cfg : Config) (fetch : String → Option ℚ) (cache : Cache)
    (db : DB) :
    (∀ ev ∈ (check_all_signals cfg fetch cache db).results,
      ev ∈ (check_all_signals cfg fetch cache db).notified) ∧
    ((db.map (fun r => r.id)).Nodup → ∀ i : ℕ,
      ((check_all_signals cfg fetch cache db).results.filter
        (fun e => decide (e.signal.id = i))).length ≤ 1) ∧
    (∀ (i k : ℕ), k = 1 ∨ k = 2 ∨ k = 3 →
      is_tp_hit db i k = false →
      is_tp_hit (check_all_signals cfg fetch cache db).db i k = true →
      ∃ ev ∈ (check_all_signals cfg fetch cache db).notified,
        ev.signal.id = i ∧ ev.etype = tp_etype k) := by
  refine ⟨fun ev hev => cycle_results_sub hev, ?_, ?_⟩
  · intro hnd i
    rcases check_all_char cfg fetch cache db with ⟨_, heq⟩ | ⟨_, heq⟩
    · rw [heq]
      simp
    · rw [heq]
      exact loop_results_once (hnd.sublist (List.Sublist.map _ (List.filter_sublist db)))
  · intro i k _ hbefore hafter
    rcases check_all_char cfg fetch cache db with ⟨_, heq⟩ | ⟨_, heq⟩
    · rw [heq] at hafter
      rw [hbefore] at hafter
      cases hafter
    · rw [heq] at hafter ⊢
      rcases loop_flag_flip hafter with h | ⟨ev, hev, hevp⟩
      · rw [hbefore] at h
        cases h
      · exact ⟨ev, hev, hevp⟩

set_option maxRecDepth 100000 in
theorem results_amended_witness :
    ((check_all_signals cfgW fOne [] [tradeW]).results.filter
      (fun e => decide (e.signal.id = 1))).length ≤ 1 :=
  (results_amended cfgW fOne [] [tradeW]).2.1 (by with_unfolding_all decide) 1

set_option maxRecDepth 100000 in
/-- Claim C3 counterexample: at price 115 the Scenario A position crosses
TP1 and TP2 in the same cycle; both flags are set and both events notified,
but the list returned by checkAll carries only the first (TP1) event, not
one per transition performed. -/
theorem results_single_cex :
    ((check_all_signals cfgW (fun _ => some 115) [] [tradeW]).results.map
      (fun e => e.etype)) = [EType.TP1] ∧
    ((check_all_signals cfgW (fun _ => some 115) [] [tradeW]).notified.map
      (fun e => e.etype)) = [EType.TP1, EType.TP2] ∧
    ((check_all_signals cfgW (fun _ => some 115) [] [tradeW]).db.map
      (fun t => (t.tp1_hit, t.tp2_hit, t.tp3_hit))) = [(true, true, false)] := by
  with_unfolding_all decide

/-- Claim C10: a failed latest-price fetch yields the sentinel 0.0; only
strictly positive prices are ever stored in the tracker's cache; a position
whose cached price is absent or zero is skipped entirely; and consequently
every emitted event's trigger price is strictly positive — a price of 0
never trips a LONG stop even though it would satisfy the numeric
comparison. -/
theorem price_positive_safety (cfg : Config) (fetch : String → Option ℚ) :
    (∀ s, fetch s = none → get_current_price fetch s = 0) ∧
    (∀ (c : Cache) (syms : List String), (∀ e ∈ c, 0 < e.2) →
      ∀ e ∈ update_prices fetch c syms, 0 < e.2) ∧
    (∀ (cache : Cache) (db : DB) (t : Trade),
      cacheLookup cache t.symbol = none ∨ cacheLookup cache t.symbol = some 0 →
      check_signal cfg cache db t = ⟨db, [], none⟩) ∧
    (∀ (cache : Cache) (db : DB), (∀ e ∈ cache, 0 < e.2) →
      ∀ ev ∈ (check_all_signals cfg fetch cache db).notified, 0 < ev.hit_price) := by
  refine ⟨?_, ?_, ?_, ?_⟩
  · intro s h
    unfold get_current_price
    rw [h]
    rfl
  · intro c syms hc
    exact update_prices_pos fetch syms c hc
  · intro cache db t h
    exact check_signal_skip cfg cache db t h
  · intro cache db hc ev hev
    rcases check_all_char cfg fetch cache db with ⟨_, heq⟩ | ⟨_, heq⟩
    · rw [heq] at hev
      cases hev
    · rw [heq] at hev
      exact loop_hit_price_pos (update_prices_pos fetch _ cache hc) hev

set_option maxRecDepth 100000 in
theorem price_positive_safety_witness :
    get_current_price fNone "BTCUSDT" = 0 ∧
    0 < ({ etype := EType.TP1, signal := tradeW, hit_price := 105,
           pnl := calculate_pnl
             (calculate_weighted_entry cfgW tradeW.entry_a tradeW.entry_b)
             tradeW.tp1 (trade_is_long tradeW) } : Event).hit_price :=
  ⟨(price_positive_safety cfgW fNone).1 "BTCUSDT" rfl,
   (price_positive_safety cfgW (fun _ => some 105)).2.2.2 [] [tradeW]
     (by simp) _ (by with_unfolding_all decide)⟩

end TgBot
